import Mathlib

set_option maxHeartbeats 1000000

/-!
A shallow embedding of the calculation-graph engine found in
`graph/quality.py`, `graph/graph_node.py`, `graph/graph_manager.py`,
`graph/node_factory.py` and `graph/node_info.py`, together with proofs
about the embedded code.

Conventions used throughout:
* Python `set`s are modelled as Lean `List`s (iteration order made
  explicit) or as `Finset`s when only the set value matters.
* Python `dict`s are modelled as association lists.
* Mutable objects are modelled by explicit state passing; an exception
  is modelled with `Except`, or, where the partially mutated state after
  the raise matters, by returning the final state together with the
  raised error.
* Machine integers that can go negative (`_gc_ref_count`) are `Int`;
  counters that the code keeps non-negative (`_invalid_count`, which is
  only decremented behind a `<= 0` check that raises) are `Nat`.
-/

/-- The quality enum of `graph/quality.py` (`Quality.GOOD` / `Quality.BAD`,
represented there by the strings "Good" and "Bad"). -/
inductive QLevel
  | good
  | bad
deriving DecidableEq

/-- `Quality` from `graph/quality.py`: a quality enum `_quality` plus a set
of string descriptions `_descriptions`. -/
structure Quality where
  level : QLevel
  descriptions : Finset String
deriving DecidableEq

/-- `Quality.__init__`: `_quality = Quality.BAD`, `_descriptions = set()`. -/
def Quality.init : Quality :=
  { level := QLevel.bad, descriptions := ∅ }

/-- `Quality.clear_to_good`: sets the quality to Good and clears the
description set. -/
def Quality.clear_to_good (_q : Quality) : Quality :=
  { level := QLevel.good, descriptions := ∅ }

/-- `Quality.set_to_bad`: sets the quality to Bad with exactly the one
description passed in. -/
def Quality.set_to_bad (_q : Quality) (description : String) : Quality :=
  { level := QLevel.bad, descriptions := {description} }

/-- `Quality.is_good`: true iff the enum is GOOD. -/
def Quality.is_good (q : Quality) : Bool :=
  decide (q.level = QLevel.good)

/-- `Quality._merge_quality`: the level of `self` becomes Bad when the
merged-in level is Bad, and is otherwise unchanged. -/
def Quality.merge_quality (self : Quality) (level : QLevel) : Quality :=
  if level = QLevel.bad then { self with level := QLevel.bad } else self

/-- `Quality.merge` in its object form (`description=None` branch):
merge the other quality's enum via `_merge_quality` and union the
description sets (`self._descriptions |= quality._descriptions`). -/
def Quality.merge (self other : Quality) : Quality :=
  { self.merge_quality other.level with
      descriptions := self.descriptions ∪ other.descriptions }

/-- Claim C5: `Quality.merge`, viewed as a binary operation on
(level, descriptions) pairs, is commutative and idempotent, the Good
quality with no descriptions is a two-sided identity, a Bad operand
forces a Bad result (Bad is absorbing on the level), and the
description sets always union. -/
theorem quality_merge_algebra :
    (∀ a b : Quality, Quality.merge a b = Quality.merge b a)
    ∧ (∀ a : Quality, Quality.merge a a = a)
    ∧ (∀ a : Quality,
        Quality.merge a { level := QLevel.good, descriptions := ∅ } = a
        ∧ Quality.merge { level := QLevel.good, descriptions := ∅ } a = a)
    ∧ (∀ (a b : Quality),
        (Quality.merge { a with level := QLevel.bad } b).level = QLevel.bad
        ∧ (Quality.merge a { b with level := QLevel.bad }).level = QLevel.bad)
    ∧ (∀ a b : Quality,
        (Quality.merge a b).descriptions = a.descriptions ∪ b.descriptions) := by
  refine ⟨?_, ?_, ?_, ?_, ?_⟩
  · rintro ⟨al, ad⟩ ⟨bl, bd⟩
    cases al <;> cases bl <;>
      simp [Quality.merge, Quality.merge_quality, Finset.union_comm ad bd]
  · rintro ⟨al, ad⟩
    cases al <;> simp [Quality.merge, Quality.merge_quality]
  · rintro ⟨al, ad⟩
    cases al <;> simp [Quality.merge, Quality.merge_quality]
  · rintro ⟨al, ad⟩ ⟨bl, bd⟩
    cases al <;> cases bl <;> simp [Quality.merge, Quality.merge_quality]
  · rintro ⟨al, ad⟩ ⟨bl, bd⟩
    cases bl <;> simp [Quality.merge, Quality.merge_quality]

/-- `GraphNode.GCType` from `graph/graph_node.py`: COLLECTABLE /
NON_COLLECTABLE. -/
inductive GCType
  | collectable
  | non_collectable
deriving DecidableEq

/-- `GraphNode.CalculateChildrenType` from `graph/graph_node.py`. -/
inductive CalculateChildrenType
  | calculate_children
  | do_not_calculate_children
deriving DecidableEq

/-- The per-object state of a `GraphNode` (`graph/graph_node.py`,
`__init__`), as seen by the GraphManager-level operations.  Node
references are modelled by `node_id` strings; the `graph_manager` and
`environment` back-references carry no data of their own and are
dropped. -/
structure GraphNode where
  node_id : String
  quality : Quality
  parent_nodes : List String
  child_nodes : List String
  child_nodes_for_this_calculation_cycle : List String
  invalid_count : Nat
  needs_calculation : Bool
  updated_parent_nodes : List String
  gc_type : GCType
  gc_ref_count : Int
  has_calculated : Bool
  auto_rebuild_nodes : List String
deriving DecidableEq

/-- `GraphNode.__init__`: a freshly constructed node. -/
def GraphNode.init (node_id : String) : GraphNode where
  node_id := node_id
  quality := Quality.init
  parent_nodes := []
  child_nodes := []
  child_nodes_for_this_calculation_cycle := []
  invalid_count := 0
  needs_calculation := true
  updated_parent_nodes := []
  gc_type := GCType.collectable
  gc_ref_count := 0
  has_calculated := false
  auto_rebuild_nodes := []

/-- Claim C10: a newly constructed `Quality` — and therefore the `quality`
field of every newly created node, before its first `calculate_quality` —
has level Bad with an empty description set, so `is_good` reports false:
a node never reports Good quality before its first calculation. -/
theorem new_node_quality_bad :
    Quality.init.level = QLevel.bad
    ∧ Quality.init.descriptions = ∅
    ∧ Quality.init.is_good = false
    ∧ ∀ node_id : String,
        (GraphNode.init node_id).quality = Quality.init
        ∧ (GraphNode.init node_id).quality.is_good = false := by
  refine ⟨rfl, rfl, rfl, fun node_id => ⟨rfl, rfl⟩⟩

/-- The state owned by `GraphManager` (`graph/graph_manager.py`,
`__init__`).  The node population `_nodes` is an association list from id
to node; the various node sets hold node ids. -/
structure GraphManager where
  nodes : List (String × GraphNode)
  non_collectable_nodes : List String
  changed_nodes : List String
  nodes_with_updated_parents : List String
  new_node_ids : List String
  new_parents_this_calculation_cycle : List (String × List String)
  nodes_with_updated_late_parents : List (String × List String)
  gc_required : Bool
  is_calculating : Bool
deriving DecidableEq

/-- `GraphManager.__init__`: everything empty, both flags false. -/
def GraphManager.init : GraphManager where
  nodes := []
  non_collectable_nodes := []
  changed_nodes := []
  nodes_with_updated_parents := []
  new_node_ids := []
  new_parents_this_calculation_cycle := []
  nodes_with_updated_late_parents := []
  gc_required := false
  is_calculating := false

/-- The errors the embedded code can raise.  `GraphException`s are split
by message; `attribute_error` and `type_error` stand for the Python
`AttributeError` / `TypeError` raised by the interpreter itself. -/
inductive GErr
  | duplicate_id
  | missing_node
  | ref_count_underflow
  | invariant_broken
  | attribute_error
  | type_error
  | fuel_out
deriving DecidableEq

deriving instance DecidableEq for Except

/-- Dictionary lookup on an association list, used to model `_nodes[id]`
style access. -/
def dict_get {β : Type} (l : List (String × β)) (k : String) : Option β :=
  match l with
  | [] => none
  | kv :: es => if kv.1 = k then some kv.2 else dict_get es k

/-- `GraphManager.find_node`: the node for the id, or None. -/
def GraphManager.find_node (m : GraphManager) (node_id : String) : Option GraphNode :=
  dict_get m.nodes node_id

/-- `GraphManager.has_node`: true iff the id maps to a (non-None) node.
The model never stores a None value, so this is just presence. -/
def GraphManager.has_node (m : GraphManager) (node_id : String) : Bool :=
  (dict_get m.nodes node_id).isSome

/-- `GraphManager.get_node_count`: the size of `_nodes`. -/
def GraphManager.get_node_count (m : GraphManager) : Nat :=
  m.nodes.length

/-- Write a (mutated) node object back into the `_nodes` map.  In Python
this is implicit: the map holds the same object that was mutated. -/
def GraphManager.store (m : GraphManager) (node : GraphNode) : GraphManager :=
  { m with nodes := m.nodes.map fun kv =>
      if kv.1 = node.node_id then (kv.1, node) else kv }

/-- `GraphManager.update_gc_info_for_node`: insert the node into
`_non_collectable_nodes` if it is NON_COLLECTABLE, otherwise remove it. -/
def GraphManager.update_gc_info_for_node (m : GraphManager) (node : GraphNode) :
    GraphManager :=
  if node.gc_type = GCType.non_collectable then
    { m with non_collectable_nodes := m.non_collectable_nodes.insert node.node_id }
  else
    { m with non_collectable_nodes := m.non_collectable_nodes.erase node.node_id }

/-- `GraphNode.set_gc_type`: set `_gc_type` on the node and tell the
manager via `update_gc_info_for_node`.  Returns the mutated node and the
updated manager (with the mutation written through to the map). -/
def GraphNode.set_gc_type (node : GraphNode) (gc_type : GCType) (m : GraphManager) :
    GraphNode × GraphManager :=
  let node := { node with gc_type := gc_type }
  let m := m.store node
  (node, m.update_gc_info_for_node node)

/-- `GraphManager.needs_calculation`: set the node's `_needs_calculation`
flag and add it to `_changed_nodes`. -/
def GraphManager.needs_calculation (m : GraphManager) (node : GraphNode) :
    GraphNode × GraphManager :=
  let node := { node with needs_calculation := true }
  let m := m.store node
  (node, { m with changed_nodes := m.changed_nodes.insert node.node_id })

/-- `GraphManager.add_node`: raise `DuplicateId` when the id is present,
otherwise insert the node, mark it as needing calculation and record its
id in `_new_node_ids`.  Returns the node object as well (its
`_needs_calculation` flag was mutated through the alias). -/
def GraphManager.add_node (m : GraphManager) (node : GraphNode) :
    Except GErr (GraphNode × GraphManager) :=
  if m.has_node node.node_id then
    Except.error GErr.duplicate_id
  else
    let m := { m with nodes := m.nodes ++ [(node.node_id, node)] }
    let (node, m) := m.needs_calculation node
    Except.ok (node, { m with new_node_ids := m.new_node_ids.insert node.node_id })

/-- The outcome of `GraphManager.release_node`.  A raised exception is
modelled by `raised = some e` together with the state at the moment of
the raise: in Python, mutations made before the raise stay visible. -/
structure ReleaseOutcome where
  raised : Option GErr
  manager : GraphManager
  node : Option GraphNode
deriving DecidableEq

/-- `GraphManager.release_node`: releasing None is a no-op; otherwise
decrement the node's `_gc_ref_count` first, then raise
`RefCountUnderflow` if it went negative, and flip the node to
COLLECTABLE with `_gc_required = True` if it reached zero. -/
def GraphManager.release_node (m : GraphManager) (node : Option GraphNode) :
    ReleaseOutcome :=
  match node with
  | none => { raised := none, manager := m, node := none }
  | some node =>
      -- node.release_gc_ref_count()
      let node := { node with gc_ref_count := node.gc_ref_count - 1 }
      let m := m.store node
      if node.gc_ref_count < 0 then
        { raised := some GErr.ref_count_underflow, manager := m, node := some node }
      else if node.gc_ref_count = 0 then
        let (node, m) := node.set_gc_type GCType.collectable m
        { raised := none, manager := { m with gc_required := true }, node := some node }
      else
        { raised := none, manager := m, node := some node }

/-- A concrete pinned-then-overreleased node used to exercise
`release_node`'s underflow path. -/
def releaseExampleNode : GraphNode :=
  { GraphNode.init "P" with gc_ref_count := 0 }

/-- A manager holding just `releaseExampleNode`. -/
def releaseExampleManager : GraphManager :=
  { GraphManager.init with nodes := [("P", releaseExampleNode)] }

/-- Claim C8, counterexample: `release_node` on a node with
`gc_ref_count = 0` raises `RefCountUnderflow`, but it has already
decremented the node's `gc_ref_count` to `-1` — the state is *not*
unmutated as the claim demands. -/
theorem release_node_mutates_on_underflow :
    (releaseExampleManager.release_node (some releaseExampleNode)).raised
        = some GErr.ref_count_underflow
    ∧ (releaseExampleManager.release_node (some releaseExampleNode)).node
        = some { releaseExampleNode with gc_ref_count := -1 }
    ∧ ¬ (releaseExampleManager.release_node (some releaseExampleNode)).node
        = some releaseExampleNode := by
  refine ⟨rfl, rfl, ?_⟩
  intro h
  simp [GraphManager.release_node, releaseExampleManager, releaseExampleNode,
    GraphManager.store, GraphNode.init] at h

/-- Claim C8, amended: `release_node None` is a no-op;
releasing a node whose refcount reaches zero flips it to COLLECTABLE and
sets `gc_required`; and when `release_node` raises `RefCountUnderflow`
the *only* mutation is the node's `gc_ref_count`, which has been
decremented by one (to a negative value) — the manager's
`non_collectable_nodes`, `gc_required` and the rest of the node are
unchanged. -/
theorem release_node_spec (m : GraphManager) (node : GraphNode) :
    (GraphManager.release_node m none
        = { raised := none, manager := m, node := none })
    ∧ (node.gc_ref_count = 1 →
        (m.release_node (some node)).raised = none
        ∧ (m.release_node (some node)).node
            = some { node with gc_ref_count := 0, gc_type := GCType.collectable }
        ∧ (m.release_node (some node)).manager.gc_required = true)
    ∧ (node.gc_ref_count ≤ 0 →
        (m.release_node (some node)).raised = some GErr.ref_count_underflow
        ∧ (m.release_node (some node)).node
            = some { node with gc_ref_count := node.gc_ref_count - 1 }
        ∧ (m.release_node (some node)).manager.non_collectable_nodes
            = m.non_collectable_nodes
        ∧ (m.release_node (some node)).manager.gc_required = m.gc_required
        ∧ (m.release_node (some node)).manager.changed_nodes = m.changed_nodes) := by
  refine ⟨rfl, ?_, ?_⟩
  · intro h
    simp [GraphManager.release_node, h, GraphNode.set_gc_type,
      GraphManager.update_gc_info_for_node, GraphManager.store]
  · intro h
    have hneg : node.gc_ref_count - 1 < 0 := by omega
    simp [GraphManager.release_node, hneg, GraphManager.store,
      hneg.not_le]

/-- Witness for `release_node_spec` at a concrete manager and node. -/
theorem release_node_spec_witness :
    releaseExampleNode.gc_ref_count ≤ 0
    ∧ ((releaseExampleManager.release_node (some releaseExampleNode)).raised
          = some GErr.ref_count_underflow
        ∧ (releaseExampleManager.release_node (some releaseExampleNode)).node
            = some { releaseExampleNode with
                       gc_ref_count := releaseExampleNode.gc_ref_count - 1 }
        ∧ (releaseExampleManager.release_node
            (some releaseExampleNode)).manager.non_collectable_nodes
            = releaseExampleManager.non_collectable_nodes
        ∧ (releaseExampleManager.release_node
            (some releaseExampleNode)).manager.gc_required
            = releaseExampleManager.gc_required
        ∧ (releaseExampleManager.release_node
            (some releaseExampleNode)).manager.changed_nodes
            = releaseExampleManager.changed_nodes) :=
  ⟨by decide,
    (release_node_spec releaseExampleManager releaseExampleNode).2.2 (by decide)⟩

/-- A node-class value, as consumed by `NodeFactory.get_node`
(`graph/node_factory.py`): its `__name__`, its `get_type()` override
result, and its `make_node_id` static method. -/
structure NodeType where
  name : String
  get_type : String
  make_node_id : List String → String

/-- `GraphNode.make_node_id`: join the stringified identity args with
`_`, or "ID" when there are none. -/
def GraphNode.make_node_id (args : List String) : String :=
  if args.isEmpty then "ID" else String.intercalate "_" args

/-- The node id formed by `NodeFactory.get_node`: the type name (falling
back from an empty `get_type()` to `__name__`), a dot, and
`make_node_id` of the identity args. -/
def NodeFactory.node_id_for (node_type : NodeType) (args : List String) : String :=
  let node_type_name :=
    if node_type.get_type = "" then node_type.name else node_type.get_type
  node_type_name ++ "." ++ node_type.make_node_id args

/-- `NodeFactory.get_node` (`graph/node_factory.py`): look the node up by
its constructed id, create and `add_node` it when absent, and bump the
refcount / pin it when requested NON_COLLECTABLE.  Construction of a
derived-class node ends in `GraphNode.__init__` receiving the computed
id, which `GraphNode.init` models. -/
def NodeFactory.get_node (graph_manager : GraphManager) (gc_type : GCType)
    (node_type : NodeType) (args : List String) :
    Except GErr (GraphNode × GraphManager) := do
  let node_id := NodeFactory.node_id_for node_type args
  let (node, gm) ←
    match graph_manager.find_node node_id with
    | some node => Except.ok (node, graph_manager)
    | none => graph_manager.add_node (GraphNode.init node_id)
  if gc_type = GCType.non_collectable then
    let node := { node with gc_ref_count := node.gc_ref_count + 1 }
    let gm := gm.store node
    Except.ok (node.set_gc_type GCType.non_collectable gm)
  else
    Except.ok (node, gm)

/-- If a key is absent from an association list, every stored key
differs from it. -/
theorem dict_get_none_keys {β : Type} {l : List (String × β)} {k : String}
    (h : dict_get l k = none) : ∀ kv ∈ l, kv.1 ≠ k := by
  induction l with
  | nil => intro kv hkv; cases hkv
  | cons a l ih =>
      intro kv hkv
      by_cases hk : a.1 = k
      · simp [dict_get, hk] at h
      · rw [List.mem_cons] at hkv
        rcases hkv with hkv | hkv
        · rw [hkv]; exact hk
        · exact ih (by simpa [dict_get, hk] using h) kv hkv

/-- Looking up an absent key after appending it finds the new value. -/
theorem dict_get_append_singleton {β : Type} {l : List (String × β)} {k : String}
    (v : β) (h : dict_get l k = none) :
    dict_get (l ++ [(k, v)]) k = some v := by
  induction l with
  | nil => simp [dict_get]
  | cons a l ih =>
      by_cases hk : a.1 = k
      · simp [dict_get, hk] at h
      · simpa [dict_get, hk] using ih (by simpa [dict_get, hk] using h)

/-- A successful association-list lookup produces a stored pair. -/
theorem dict_get_some_mem {β : Type} {l : List (String × β)} {k : String} {v : β}
    (h : dict_get l k = some v) : (k, v) ∈ l := by
  induction l with
  | nil => simp [dict_get] at h
  | cons a l ih =>
      obtain ⟨a1, a2⟩ := a
      by_cases hk : a1 = k
      · simp [dict_get, hk] at h
        exact List.mem_cons.mpr (Or.inl (by rw [hk, h]))
      · exact List.mem_cons_of_mem _ (ih (by simpa [dict_get, hk] using h))

/-- Rewriting the entry of a present key in an association list, in the
shape used by `GraphManager.store`. -/
theorem dict_get_map_store {β : Type} {l : List (String × β)} {k : String}
    (v : β) (h : (dict_get l k).isSome) :
    dict_get (l.map fun kv => if kv.1 = k then (kv.1, v) else kv) k = some v := by
  induction l with
  | nil => simp [dict_get] at h
  | cons a l ih =>
      by_cases hk : a.1 = k
      · simp [dict_get, hk]
      · have := ih (by simpa [dict_get, hk] using h)
        simpa [dict_get, hk] using this

/-- `GraphManager.store` with a key that is absent from every entry of a
prefix and present exactly at the appended entry. -/
theorem store_append_eq {β : Type} {l : List (String × β)} {k : String}
    (hl : ∀ kv ∈ l, kv.1 ≠ k) (v v' : β) :
    ((l ++ [(k, v)]).map fun kv => if kv.1 = k then (kv.1, v') else kv)
      = l ++ [(k, v')] := by
  induction l with
  | nil => simp
  | cons a l ih =>
      have ha : a.1 ≠ k := hl a (List.mem_cons_self a l)
      simp only [List.cons_append, List.map_cons, if_neg ha]
      rw [ih fun kv hkv => hl kv (List.mem_cons_of_mem a hkv)]

/-- A map leaving every key untouched when the rewritten key is absent. -/
theorem store_absent_eq {β : Type} {l : List (String × β)} {k : String}
    (hl : ∀ kv ∈ l, kv.1 ≠ k) (v' : β) :
    (l.map fun kv => if kv.1 = k then (kv.1, v') else kv) = l := by
  induction l with
  | nil => rfl
  | cons a l ih =>
      have ha : a.1 ≠ k := hl a (List.mem_cons_self a l)
      simp only [List.map_cons, if_neg ha]
      rw [ih fun kv hkv => hl kv (List.mem_cons_of_mem a hkv)]

/-- `add_node` on a fresh id: the node is appended, marked for
calculation, and recorded in `_new_node_ids`. -/
theorem add_node_fresh (m : GraphManager) (node_id : String)
    (h : m.find_node node_id = none) :
    m.add_node (GraphNode.init node_id) = Except.ok
      (GraphNode.init node_id,
       { m with nodes := m.nodes ++ [(node_id, GraphNode.init node_id)],
                changed_nodes := m.changed_nodes.insert node_id,
                new_node_ids := m.new_node_ids.insert node_id }) := by
  have h' : dict_get m.nodes node_id = none := by
    simpa [GraphManager.find_node] using h
  have hkeys := dict_get_none_keys h'
  simp [GraphManager.add_node, GraphManager.has_node, GraphManager.needs_calculation,
    GraphManager.store, GraphNode.init, h', store_append_eq hkeys]

/-- `get_node` when a node under the constructed id is already present:
the stored node is returned (pinned on request) and the population size
does not change. -/
theorem get_node_found (m : GraphManager) (gc_type : GCType) (node_type : NodeType)
    (args : List String) (n0 : GraphNode)
    (hfind : m.find_node (NodeFactory.node_id_for node_type args) = some n0)
    (hid : n0.node_id = NodeFactory.node_id_for node_type args) :
    ∃ r, NodeFactory.get_node m gc_type node_type args = Except.ok r
      ∧ r.1.node_id = NodeFactory.node_id_for node_type args
      ∧ r.2.find_node (NodeFactory.node_id_for node_type args) = some r.1
      ∧ r.2.get_node_count = m.get_node_count := by
  cases gc_type with
  | collectable =>
      refine ⟨(n0, m), ?_, hid, hfind, rfl⟩
      simp [NodeFactory.get_node, hfind, Bind.bind, Except.bind]
  | non_collectable =>
      have hsome1 : (dict_get m.nodes (NodeFactory.node_id_for node_type args)).isSome := by
        simp only [GraphManager.find_node] at hfind
        simp [hfind]
      refine ⟨(({ n0 with gc_ref_count := n0.gc_ref_count + 1, gc_type := GCType.non_collectable } : GraphNode),
          (((m.store { n0 with gc_ref_count := n0.gc_ref_count + 1 }).store
              { n0 with gc_ref_count := n0.gc_ref_count + 1, gc_type := GCType.non_collectable }).update_gc_info_for_node
              { n0 with gc_ref_count := n0.gc_ref_count + 1, gc_type := GCType.non_collectable })), ?_, hid, ?_, ?_⟩
      · simp [NodeFactory.get_node, hfind, Bind.bind, Except.bind, GraphNode.set_gc_type]
      · simp only [GraphManager.update_gc_info_for_node, GraphManager.store,
          GraphManager.find_node, reduceIte]
        rw [show ({ n0 with gc_ref_count := n0.gc_ref_count + 1, gc_type := GCType.non_collectable } : GraphNode).node_id
            = NodeFactory.node_id_for node_type args from hid]
        exact dict_get_map_store _ (by rw [dict_get_map_store _ hsome1]; rfl)
      · simp [GraphManager.update_gc_info_for_node, GraphManager.store,
          GraphManager.get_node_count]

/-- `get_node` when no node exists under the constructed id: a fresh
node is created, registered, pinned if requested, and the population
grows by exactly one. -/
theorem get_node_fresh (m : GraphManager) (gc_type : GCType) (node_type : NodeType)
    (args : List String)
    (hfind : m.find_node (NodeFactory.node_id_for node_type args) = none) :
    ∃ r, NodeFactory.get_node m gc_type node_type args = Except.ok r
      ∧ r.1.node_id = NodeFactory.node_id_for node_type args
      ∧ r.2.find_node (NodeFactory.node_id_for node_type args) = some r.1
      ∧ r.2.get_node_count = m.get_node_count + 1 := by
  have hdg : dict_get m.nodes (NodeFactory.node_id_for node_type args) = none := by
    simpa [GraphManager.find_node] using hfind
  have hkeys := dict_get_none_keys hdg
  have hadd := add_node_fresh m (NodeFactory.node_id_for node_type args) hfind
  have hadd' := hadd
  simp only [GraphNode.init] at hadd'
  cases gc_type with
  | collectable =>
      refine ⟨(GraphNode.init (NodeFactory.node_id_for node_type args),
          { m with
              nodes := m.nodes ++ [(NodeFactory.node_id_for node_type args,
                GraphNode.init (NodeFactory.node_id_for node_type args))]
              changed_nodes := m.changed_nodes.insert (NodeFactory.node_id_for node_type args)
              new_node_ids := m.new_node_ids.insert (NodeFactory.node_id_for node_type args) }),
        ?_, rfl, ?_, ?_⟩
      · simp [NodeFactory.get_node, hfind, hadd, Bind.bind, Except.bind]
      · simpa [GraphManager.find_node] using dict_get_append_singleton _ hdg
      · simp [GraphManager.get_node_count]
  | non_collectable =>
      refine ⟨({ GraphNode.init (NodeFactory.node_id_for node_type args) with
            gc_ref_count := 1, gc_type := GCType.non_collectable },
          { m with
              nodes := m.nodes ++ [(NodeFactory.node_id_for node_type args,
                { GraphNode.init (NodeFactory.node_id_for node_type args) with
                    gc_ref_count := 1, gc_type := GCType.non_collectable })]
              changed_nodes := m.changed_nodes.insert (NodeFactory.node_id_for node_type args)
              new_node_ids := m.new_node_ids.insert (NodeFactory.node_id_for node_type args)
              non_collectable_nodes :=
                m.non_collectable_nodes.insert (NodeFactory.node_id_for node_type args) }),
        ?_, rfl, ?_, ?_⟩
      · simp [NodeFactory.get_node, hfind, hadd, hadd', Bind.bind, Except.bind,
          GraphNode.set_gc_type, GraphManager.update_gc_info_for_node,
          GraphManager.store, GraphNode.init, store_append_eq hkeys]
      · simpa [GraphManager.find_node] using dict_get_append_singleton _ hdg
      · simp [GraphManager.get_node_count]

/-- Claim C6, amended: two `get_node` calls with the same manager, node
type and identity args resolve to the same node (the second call returns
exactly the node stored under the constructed id, whose id equals that
of the first call's node), and the node count is unchanged by the second
call; the first call increases the count by one exactly when no node
with that id was present, and leaves it unchanged when one was. -/
theorem get_node_dedup (m : GraphManager) (gc_type : GCType) (node_type : NodeType)
    (args : List String) (r1 : GraphNode × GraphManager)
    (hwf : ∀ kv ∈ m.nodes, kv.2.node_id = kv.1)
    (h1 : NodeFactory.get_node m gc_type node_type args = Except.ok r1) :
    r1.1.node_id = NodeFactory.node_id_for node_type args
    ∧ r1.2.find_node (NodeFactory.node_id_for node_type args) = some r1.1
    ∧ (m.find_node (NodeFactory.node_id_for node_type args) = none →
        r1.2.get_node_count = m.get_node_count + 1)
    ∧ (m.has_node (NodeFactory.node_id_for node_type args) = true →
        r1.2.get_node_count = m.get_node_count)
    ∧ ∃ r2, NodeFactory.get_node r1.2 gc_type node_type args = Except.ok r2
        ∧ r2.1.node_id = r1.1.node_id
        ∧ r2.2.get_node_count = r1.2.get_node_count := by
  cases hfind : m.find_node (NodeFactory.node_id_for node_type args) with
  | none =>
      obtain ⟨r, hrun, hid, hfind2, hcount⟩ :=
        get_node_fresh m gc_type node_type args hfind
      rw [h1] at hrun
      injection hrun with hr
      subst hr
      have hhn : m.has_node (NodeFactory.node_id_for node_type args) = false := by
        simp only [GraphManager.find_node] at hfind
        simp [GraphManager.has_node, hfind]
      refine ⟨hid, hfind2, fun _ => hcount, fun hh => ?_, ?_⟩
      · rw [hhn] at hh; cases hh
      · obtain ⟨r2, hrun2, hid2, hfind3, hcount2⟩ :=
          get_node_found r1.2 gc_type node_type args r1.1 hfind2 hid
        exact ⟨r2, hrun2, by rw [hid2, hid], hcount2⟩
  | some n0 =>
      have hid0 : n0.node_id = NodeFactory.node_id_for node_type args :=
        hwf _ (dict_get_some_mem (by simpa [GraphManager.find_node] using hfind))
      obtain ⟨r, hrun, hid, hfind2, hcount⟩ :=
        get_node_found m gc_type node_type args n0 hfind hid0
      rw [h1] at hrun
      injection hrun with hr
      subst hr
      refine ⟨hid, hfind2, fun hh => Option.noConfusion hh, fun _ => hcount, ?_⟩
      · obtain ⟨r2, hrun2, hid2, hfind3, hcount2⟩ :=
          get_node_found r1.2 gc_type node_type args r1.1 hfind2 hid
        exact ⟨r2, hrun2, by rw [hid2, hid], hcount2⟩

/-- The node class used by the concrete factory examples: the bare
`GraphNode` base class with its default `get_type` and `make_node_id`. -/
def dedupExampleType : NodeType :=
  { name := "GraphNode", get_type := "", make_node_id := GraphNode.make_node_id }

/-- Claim C6, counterexample: from the manager state reached after one
`get_node` call (node count 1), a further `get_node` with the same type
and args leaves the count at 1 — it does not increase it by one, so the
claim's "node count increases by one on the first call", quantified over
every manager state, is false. -/
theorem get_node_count_counterexample :
    ((NodeFactory.get_node GraphManager.init GCType.collectable
        dedupExampleType ["a"]).toOption.bind fun r =>
      (NodeFactory.get_node r.2 GCType.collectable
          dedupExampleType ["a"]).toOption.map fun r2 =>
        (r.2.get_node_count, r2.2.get_node_count)) = some (1, 1)
    ∧ ¬ ((NodeFactory.get_node GraphManager.init GCType.collectable
        dedupExampleType ["a"]).toOption.bind fun r =>
      (NodeFactory.get_node r.2 GCType.collectable
          dedupExampleType ["a"]).toOption.map fun r2 =>
        (r.2.get_node_count, r2.2.get_node_count)) = some (1, 2) := by
  exact ⟨by decide, by decide⟩

/-- Witness for `get_node_dedup` at the empty manager and the base node
class. -/
theorem get_node_dedup_witness :
    (∀ kv ∈ GraphManager.init.nodes, kv.2.node_id = kv.1)
    ∧ ∃ r1, NodeFactory.get_node GraphManager.init GCType.collectable
          dedupExampleType ["a"] = Except.ok r1
        ∧ (r1.1.node_id = NodeFactory.node_id_for dedupExampleType ["a"]
          ∧ r1.2.find_node (NodeFactory.node_id_for dedupExampleType ["a"]) = some r1.1
          ∧ (GraphManager.init.find_node
                (NodeFactory.node_id_for dedupExampleType ["a"]) = none →
              r1.2.get_node_count = GraphManager.init.get_node_count + 1)
          ∧ (GraphManager.init.has_node
                (NodeFactory.node_id_for dedupExampleType ["a"]) = true →
              r1.2.get_node_count = GraphManager.init.get_node_count)
          ∧ ∃ r2, NodeFactory.get_node r1.2 GCType.collectable
                dedupExampleType ["a"] = Except.ok r2
              ∧ r2.1.node_id = r1.1.node_id
              ∧ r2.2.get_node_count = r1.2.get_node_count) :=
  ⟨by simp [GraphManager.init],
    ⟨_, rfl, get_node_dedup GraphManager.init GCType.collectable dedupExampleType
      ["a"] _ (by simp [GraphManager.init]) rfl⟩⟩

/-- Add a value to the set stored under a key of a dict-of-sets,
creating the entry when absent (`d[k] = set()` / `d[k].add(v)`). -/
def dict_add_to_set (l : List (String × List String)) (k v : String) :
    List (String × List String) :=
  match l with
  | [] => [(k, [v])]
  | kv :: es =>
      if kv.1 = k then (kv.1, kv.2.insert v) :: es else kv :: dict_add_to_set es k v

/-- Overwrite (or create) the entry of a key in a dict (`d[k] = v`). -/
def dict_set (l : List (String × List String)) (k : String) (v : List String) :
    List (String × List String) :=
  match l with
  | [] => [(k, v)]
  | kv :: es => if kv.1 = k then (kv.1, v) :: es else kv :: dict_set es k v

/-- `GraphManager.parents_updated`: outside the calculation cycle this is
a no-op; inside it, record the calling child under each new parent in
`_new_parents_this_calculation_cycle`. -/
def GraphManager.parents_updated (m : GraphManager) (node : String)
    (new_parents : List String) : GraphManager :=
  if m.is_calculating = false then m
  else
    { m with new_parents_this_calculation_cycle :=
        (new_parents.foldl (fun d parent => dict_add_to_set d parent node)
          m.new_parents_this_calculation_cycle) }

/-- `GraphManager.node_calculated`: when the freshly calculated node is a
key of `_new_parents_this_calculation_cycle` it is a late parent; record
its children in `_nodes_with_updated_late_parents`. -/
def GraphManager.node_calculated (m : GraphManager) (node : String) : GraphManager :=
  match dict_get m.new_parents_this_calculation_cycle node with
  | none => m
  | some child_nodes =>
      { m with nodes_with_updated_late_parents :=
          dict_set m.nodes_with_updated_late_parents node child_nodes }

/-- `GraphManager._mark_nodes_with_updated_late_parents`: the source
iterates `for parent, children in self._nodes_with_updated_late_parents:`.
Iterating a Python dict yields its KEYS — here `GraphNode` objects — and
tuple-unpacking a `GraphNode` raises `TypeError` on the first key (the
loop was written for `.items()`).  With an empty dict the loop body never
runs and the trailing `.clear()` leaves the empty dict empty. -/
def GraphManager.mark_nodes_with_updated_late_parents (m : GraphManager) :
    Except GErr GraphManager :=
  match m.nodes_with_updated_late_parents with
  | [] => Except.ok { m with nodes_with_updated_late_parents := [] }
  | _ :: _ => Except.error GErr.type_error

/-- A manager inside its calculation cycle, used for the late-parent
scenario. -/
def lateParentExampleManager : GraphManager :=
  { GraphManager.init with is_calculating := true }

/-- Claim C3: the late-parent protocol is broken.  In the cycle, child
"C" registers its new parent "P" (`parents_updated`), "P" later
calculates and is correctly recorded as a late parent
(`node_calculated`), but the end-of-cycle drain
`_mark_nodes_with_updated_late_parents` then raises `TypeError` (the
loop unpacks dict keys instead of `.items()`), so "C" is never marked
for calculation and never gains "P" in its updated-parents set. -/
theorem mark_late_parents_type_error :
    ((lateParentExampleManager.parents_updated "C" ["P"]).node_calculated
        "P").nodes_with_updated_late_parents = [("P", ["C"])]
    ∧ ((lateParentExampleManager.parents_updated "C" ["P"]).node_calculated
        "P").mark_nodes_with_updated_late_parents = Except.error GErr.type_error
    ∧ GraphManager.init.mark_nodes_with_updated_late_parents
        = Except.ok GraphManager.init := by
  refine ⟨by decide, by decide, rfl⟩

/-- Replace the stored node under an id through a mutation function
(object mutation seen through the `_nodes` map). -/
def GraphManager.update_stored (m : GraphManager) (node_id : String)
    (f : GraphNode → GraphNode) : GraphManager :=
  { m with nodes := m.nodes.map fun kv =>
      if kv.1 = node_id then (kv.1, f kv.2) else kv }

/-- `GraphManager._remove_parent_nodes_from_set`: removes the node from
the set and then evaluates `node.parents` — an attribute `GraphNode`
does not define (its field is `_parent_nodes`) — so Python raises
`AttributeError` before any parent can be walked. -/
def GraphManager.remove_parent_nodes_from_set (node_id : String)
    (nodes : List String) : Except GErr (List String) :=
  let _nodes := nodes.erase node_id
  Except.error GErr.attribute_error

/-- `GraphManager._dispose_and_remove_node` together with the
`GraphNode.cleanup` it triggers: drop the node from the four manager
collections, sever its parent and child links symmetrically
(`remove_parents` also latches `_gc_required` via `link_removed`), and
run the base class's no-op `dispose`. -/
def GraphManager.dispose_and_remove_node (m : GraphManager) (node : GraphNode) :
    GraphManager :=
  let m := { m with
    nodes := m.nodes.filter fun kv => decide (kv.1 ≠ node.node_id)
    changed_nodes := m.changed_nodes.erase node.node_id
    non_collectable_nodes := m.non_collectable_nodes.erase node.node_id
    nodes_with_updated_parents := m.nodes_with_updated_parents.erase node.node_id }
  let m := node.parent_nodes.foldl (fun mm p =>
    mm.update_stored p fun pn =>
      { pn with child_nodes := pn.child_nodes.erase node.node_id }) m
  let m := { m with gc_required := true }
  node.child_nodes.foldl (fun mm c =>
    mm.update_stored c fun cn =>
      { cn with parent_nodes := cn.parent_nodes.erase node.node_id }) m

/-- `GraphManager._perform_gc`: nothing happens unless `_gc_required`;
otherwise clear the latch, walk the ancestors of every non-collectable
node out of the all-nodes set, and reap whatever remains.  Each walk
calls `_remove_parent_nodes_from_set`, which raises `AttributeError`
(see there), so the sweep crashes whenever at least one pinned node
exists.  (The `none` fallback in the reap loop is unreachable: the
Python loop holds the node objects themselves.) -/
def GraphManager.perform_gc (m : GraphManager) : Except GErr GraphManager :=
  if m.gc_required = false then Except.ok m
  else
    let m := { m with gc_required := false }
    let all_nodes := m.nodes.map Prod.fst
    do
      let all_nodes ← m.non_collectable_nodes.foldlM
        (fun acc node_id => GraphManager.remove_parent_nodes_from_set node_id acc)
        all_nodes
      Except.ok (all_nodes.foldl (fun mm node_id =>
        match mm.find_node node_id with
        | some node => mm.dispose_and_remove_node node
        | none => mm) m)

/-- A manager with one pinned node "P" and one collectable node "Q",
with a GC pending. -/
def gcExampleManager : GraphManager :=
  { GraphManager.init with
      nodes := [("P", { GraphNode.init "P" with
                  gc_type := GCType.non_collectable, gc_ref_count := 1 }),
                ("Q", GraphNode.init "Q")]
      non_collectable_nodes := ["P"]
      gc_required := true }

/-- Claim C4: the GC sweep crashes instead of collecting.  On a manager
with a pinned node and `_gc_required` set, `_perform_gc` raises
`AttributeError` (it reads `node.parents`, which `GraphNode` never
defines), so no state in which "every remaining node is an ancestor of a
pinned node" is ever reached; without the latch the sweep is a no-op. -/
theorem perform_gc_attribute_error :
    gcExampleManager.perform_gc = Except.error GErr.attribute_error
    ∧ GraphManager.init.perform_gc = Except.ok GraphManager.init := by
  exact ⟨rfl, rfl⟩

/-- `NodeInfo` from `graph/node_info.py`.  (Its `__init__` sets
`self.quality = Quality.BAD`, i.e. the enum value itself rather than a
`Quality` object; the field is modelled at the enum type.) -/
structure NodeInfo where
  node_id : String
  node_type : String
  quality : QLevel
  message : String
  parent_ids : List String
deriving DecidableEq

/-- `NodeInfo.__init__`. -/
def NodeInfo.init : NodeInfo where
  node_id := ""
  node_type := ""
  quality := QLevel.bad
  message := ""
  parent_ids := []

/-- `GraphManager.dump`: the source iterates `for node in self._nodes:`,
which yields the dict's KEYS (id strings), and the first loop iteration
evaluates `node.node_id` on a `str` — `AttributeError`.  (Further down,
`node.parents` would be a second such error: `GraphNode` defines
`_parent_nodes`.)  On an empty graph the loop body never runs and the
empty result list is returned. -/
def GraphManager.dump (m : GraphManager) : Except GErr (List NodeInfo) :=
  match m.nodes with
  | [] => Except.ok []
  | _ :: _ => Except.error GErr.attribute_error

/-- A manager holding a single node, for the dump example. -/
def dumpExampleManager : GraphManager :=
  { GraphManager.init with nodes := [("A", GraphNode.init "A")] }

/-- Claim C7: `dump` never produces the promised one-record-per-node
list: on any non-empty graph it raises `AttributeError` (it iterates the
`_nodes` dict, getting id strings, and reads `.node_id` off a string);
only the empty graph yields a (trivially empty) list. -/
theorem dump_attribute_error :
    GraphManager.init.dump = Except.ok []
    ∧ dumpExampleManager.dump = Except.error GErr.attribute_error
    ∧ dumpExampleManager.get_node_count = 1 := by
  exact ⟨rfl, rfl, rfl⟩

/-!
The calculation cycle itself (`GraphManager.calculate` together with
`GraphNode.invalidate` / `GraphNode.validate`) is modelled for a graph
of base-class nodes: `set_dependencies` is the base no-op (so the edge
sets are fixed during the cycle and `_auto_rebuild_nodes`,
`_new_parents_this_calculation_cycle` and the late-parent collections
stay empty), `calculate` is the base body (merge parent qualities,
return CALCULATE_CHILDREN), and no link has been removed and no
refcount released to zero since the last cycle (so `_gc_required` is
false and `_perform_gc` returns immediately).

Nodes are identified by `Nat` ids.  The edge sets are a static `Graph`;
the per-node mutable fields live in `GState` as functions from ids.  The
recursive `invalidate` / `validate` calls are run with an explicit work
stack: each stack item is one pending call, and a callee's recursive
calls are pushed in front of the remaining work, which is exactly the
depth-first order of the Python recursion.  A `fuel` parameter bounds
the number of processed items; `fuel_out` models non-termination (which
only cyclic graphs can reach).  The `trace` field is instrumentation:
it records, in order, the nodes whose `calculate` body ran.
-/

/-- The static shape of the graph: node ids, and the `_child_nodes` /
`_parent_nodes` sets of each node. -/
structure Graph where
  node_ids : List Nat
  children : Nat → List Nat
  parents : Nat → List Nat

/-- The mutable per-node and per-manager state touched by a cycle. -/
structure GState where
  invalid_count : Nat → Nat
  needs_calculation : Nat → Bool
  has_calculated : Nat → Bool
  calc_children : Nat → List Nat
  updated_parents : Nat → List Nat
  quality : Nat → Quality
  changed_nodes : List Nat
  nodes_with_updated_parents : List Nat
  trace : List Nat

/-- Write a node's `_invalid_count`. -/
def GState.set_invalid (st : GState) (n v : Nat) : GState :=
  { st with invalid_count := Function.update st.invalid_count n v }

/-- Write a node's `_needs_calculation`. -/
def GState.set_needs (st : GState) (n : Nat) (b : Bool) : GState :=
  { st with needs_calculation := Function.update st.needs_calculation n b }

/-- Write a node's `_child_nodes_for_this_calculation_cycle`. -/
def GState.set_calc_children (st : GState) (n : Nat) (cs : List Nat) : GState :=
  { st with calc_children := Function.update st.calc_children n cs }

/-- `GraphNode.add_updated_parent`: add the parent to
`_updated_parent_nodes` and tell the manager
(`node_has_updated_parents`). -/
def GState.add_updated_parent (st : GState) (n p : Nat) : GState :=
  { st with
      updated_parents := (Function.update st.updated_parents n
        ((st.updated_parents n).insert p))
      nodes_with_updated_parents := st.nodes_with_updated_parents.insert n }

/-- `GraphNode.calculate_quality` (base class): clear to Good, then
merge the quality of every parent. -/
def GState.calculate_quality (st : GState) (g : Graph) (n : Nat) : GState :=
  { st with quality := (Function.update st.quality n
      ((g.parents n).foldl (fun q p => q.merge (st.quality p))
        ((st.quality n).clear_to_good))) }

/-- The calculate part of `GraphNode.validate` once `_invalid_count`
reached zero with `_needs_calculation` set: `pre_calculate` (a no-op —
`_auto_rebuild_nodes` is empty for base-class nodes), `calculate_quality`,
the base `calculate` body (returns CALCULATE_CHILDREN), clear
`_needs_calculation`, set `has_calculated`, and `node_calculated` (a
no-op — `_new_parents_this_calculation_cycle` is empty for base-class
nodes).  The run is recorded on the trace. -/
def GState.run_calculate_body (st : GState) (g : Graph) (n : Nat) : GState :=
  let st := st.calculate_quality g n
  { st with
      needs_calculation := Function.update st.needs_calculation n false
      has_calculated := Function.update st.has_calculated n true
      trace := st.trace ++ [n] }

/-- The start of `GraphNode.invalidate`: when the invalidating parent is
not None, record it via `add_updated_parent`. -/
def GState.record_updated_parent (st : GState) (parent : Option Nat) (n : Nat) :
    GState :=
  match parent with
  | some p => st.add_updated_parent n p
  | none => st

/-- `GraphNode.invalidate`, with the recursion as an explicit work
stack.  Each item `(parent, n)` is one pending `n.invalidate(parent)`
call: record the updated parent (when not None), increment
`_invalid_count`, and on the 0 → 1 transition capture the child set and
push an `invalidate(self)` call for each captured child. -/
def invalidate_run (g : Graph) : Nat → List (Option Nat × Nat) → GState →
    Except GErr GState
  | _, [], st => Except.ok st
  | 0, _ :: _, _ => Except.error GErr.fuel_out
  | fuel+1, (parent, n) :: rest, st =>
      let st := st.record_updated_parent parent n
      let st := st.set_invalid n (st.invalid_count n + 1)
      if st.invalid_count n = 1 then
        let st := st.set_calc_children n (g.children n)
        invalidate_run g fuel ((g.children n).map (fun c => (some n, c)) ++ rest) st
      else
        invalidate_run g fuel rest st

/-- The parent's loop in `GraphNode.validate`: when the parent's
`calculate` returned CALCULATE_CHILDREN, force the child's
`_needs_calculation` flag just before validating it. -/
def GState.force_needs (st : GState) (force : Bool) (n : Nat) : GState :=
  if force then st.set_needs n true else st

/-- `GraphNode.validate`, with the recursion as an explicit work stack.
Each item `(force, n)` is one pending `n.validate()` call, where `force`
is true when the calling parent's `calculate` returned
CALCULATE_CHILDREN (the parent's loop then sets the child's
`_needs_calculation` just before the call).  A call raises
`GraphException` when `_invalid_count` is not positive; otherwise it
decrements, and at zero runs the calculate part when
`_needs_calculation` is set and pushes a `validate()` call for each
captured child. -/
def validate_run (g : Graph) : Nat → List (Bool × Nat) → GState →
    Except GErr GState
  | _, [], st => Except.ok st
  | 0, _ :: _, _ => Except.error GErr.fuel_out
  | fuel+1, (force, n) :: rest, st =>
      let st := st.force_needs force n
      if st.invalid_count n = 0 then Except.error GErr.invariant_broken
      else
        let st := st.set_invalid n (st.invalid_count n - 1)
        if st.invalid_count n = 0 then
          if st.needs_calculation n then
            let st := st.run_calculate_body g n
            validate_run g fuel ((st.calc_children n).map (fun c => (true, c)) ++ rest) st
          else
            validate_run g fuel ((st.calc_children n).map (fun c => (false, c)) ++ rest) st
        else validate_run g fuel rest st

/-- `GraphManager.clear_updated_parents`: clear
`_updated_parent_nodes` on every node in
`_nodes_with_updated_parents`, then clear that set. -/
def GState.clear_updated_parents (st : GState) : GState :=
  let st := st.nodes_with_updated_parents.foldl
    (fun s m => { s with updated_parents := Function.update s.updated_parents m [] }) st
  { st with nodes_with_updated_parents := [] }

/-- `GraphManager.calculate` for one cycle over base-class nodes with no
GC pending: snapshot and clear `_changed_nodes`, `invalidate(None)` each
snapshot node, `validate()` each snapshot node, clear the
updated-parents sets, and return.  (`_set_dependencies_on_new_nodes` is
a no-op for base-class nodes; the new-parents map and late-parents map
stay empty, so clearing and draining them do nothing; `_perform_gc`
returns at once since `_gc_required` is false.)  The `trace`
instrumentation is reset so it lists exactly this cycle's calculate
runs. -/
def run_cycle (g : Graph) (fuel : Nat) (st : GState) : Except GErr GState := do
  let st := { st with trace := [] }
  let st ←
    if st.changed_nodes.isEmpty then pure st
    else
      let roots := st.changed_nodes
      let st := { st with changed_nodes := [] }
      do
        let st ← invalidate_run g fuel (roots.map fun r => ((none : Option Nat), r)) st
        validate_run g fuel (roots.map fun r => (false, r)) st
  Except.ok st.clear_updated_parents

/-- Well-formedness of a graph: distinct ids, duplicate-free child sets,
edges staying inside the id list, parent/child symmetry
(`p ∈ n.parents ⇔ n ∈ p.children`), and an acyclicity certificate:
a rank strictly decreasing along every parent-to-child edge. -/
structure GraphWF (g : Graph) (rank : Nat → Nat) : Prop where
  nodup : g.node_ids.Nodup
  children_nodup : ∀ p, (g.children p).Nodup
  closed : ∀ p c, c ∈ g.children p → p ∈ g.node_ids ∧ c ∈ g.node_ids
  symm : ∀ p c, c ∈ g.children p ↔ p ∈ g.parents c
  rank_lt : ∀ p c, c ∈ g.children p → rank c < rank p

/-- How many pending work items target a node. -/
def tcount {α : Type} (work : List (α × Nat)) (m : Nat) : Nat :=
  work.countP fun it => decide (it.2 = m)

/-- How many parents of `m` currently hold a positive `_invalid_count`:
the deliveries `m` still has to expect from parents that have been
invalidated but have not yet validated down to zero. -/
def live (g : Graph) (inv : Nat → Nat) (m : Nat) : Nat :=
  g.node_ids.countP fun p => decide (m ∈ g.children p) && decide (inv p ≠ 0)

theorem tcount_cons {α : Type} (a : α) (n : Nat) (w : List (α × Nat)) (m : Nat) :
    tcount ((a, n) :: w) m = tcount w m + if n = m then 1 else 0 := by
  simp [tcount, List.countP_cons]

theorem tcount_append {α : Type} (w₁ w₂ : List (α × Nat)) (m : Nat) :
    tcount (w₁ ++ w₂) m = tcount w₁ m + tcount w₂ m := by
  simp [tcount, List.countP_append]

theorem countP_decide_nodup (cs : List Nat) (hn : cs.Nodup) (m : Nat) :
    cs.countP (fun c => decide (c = m)) = if m ∈ cs then 1 else 0 := by
  induction cs with
  | nil => simp
  | cons a l ih =>
      rw [List.countP_cons]
      rcases List.nodup_cons.mp hn with ⟨ha, hl⟩
      by_cases hm : a = m
      · subst hm
        simp [ha, ih hl]
      · have hor : (m = a ∨ m ∈ l) ↔ m ∈ l := or_iff_right fun h => hm h.symm
        simp only [List.mem_cons, hor, ih hl, hm, decide_eq_true_eq]
        simp

theorem tcount_map_children {α : Type} (b : α) (cs : List Nat) (hn : cs.Nodup)
    (m : Nat) :
    tcount (cs.map fun c => (b, c)) m = if m ∈ cs then 1 else 0 := by
  rw [tcount, List.countP_map]
  exact countP_decide_nodup cs hn m

/-- Counting with two predicates that differ only at one list member,
where the first holds and the second fails. -/
theorem countP_flip_at {l : List Nat} (hl : l.Nodup) {n : Nat} (hn : n ∈ l)
    {p q : Nat → Bool} (hpq : ∀ x ∈ l, x ≠ n → p x = q x)
    (hp : p n = true) (hq : q n = false) :
    l.countP p = l.countP q + 1 := by
  induction l with
  | nil => cases hn
  | cons a l ih =>
      rcases List.nodup_cons.mp hl with ⟨hal, hll⟩
      rw [List.countP_cons, List.countP_cons]
      rcases List.mem_cons.mp hn with rfl | hn'
      · have : ∀ x ∈ l, p x = q x := fun x hx =>
          hpq x (List.mem_cons_of_mem _ hx) (fun hxa => hal (hxa ▸ hx))
        rw [List.countP_congr fun x hx => by rw [this x hx]]
        simp [hp, hq]
      · have hane : a ≠ n := fun h => hal (h ▸ hn')
        rw [ih hll hn' fun x hx hxn => hpq x (List.mem_cons_of_mem _ hx) hxn]
        rw [hpq a (List.mem_cons_self a l) hane]
        omega

/-- Counting with two pointwise equal predicates. -/
theorem countP_congr_on {l : List Nat} {p q : Nat → Bool}
    (h : ∀ x ∈ l, p x = q x) : l.countP p = l.countP q :=
  List.countP_congr fun x hx => by rw [h x hx]

theorem live_update_pos (g : Graph) {inv : Nat → Nat} {n : Nat}
    (hn : inv n ≠ 0) {v : Nat} (hv : v ≠ 0) (m : Nat) :
    live g (Function.update inv n v) m = live g inv m := by
  apply countP_congr_on
  intro p hp
  by_cases hpn : p = n
  · subst hpn; simp [Function.update_same, hn, hv]
  · simp [Function.update_noteq hpn]

/-- Zeroing the count of an invalidated node removes one live parent
from each of its children and leaves every other node's count alone. -/
theorem live_update_zero (g : Graph) (hnd : g.node_ids.Nodup) {inv : Nat → Nat}
    {n : Nat} (hn : n ∈ g.node_ids) (hpos : inv n ≠ 0) (m : Nat) :
    live g inv m
      = live g (Function.update inv n 0) m + (if m ∈ g.children n then 1 else 0) := by
  by_cases hm : m ∈ g.children n
  · rw [if_pos hm]
    exact countP_flip_at hnd hn (fun x _ hxn => by simp [Function.update_noteq hxn])
      (by simp [hm, hpos]) (by simp)
  · rw [if_neg hm, Nat.add_zero]
    apply countP_congr_on
    intro p hp
    by_cases hpn : p = n
    · subst hpn; simp [hm]
    · simp [Function.update_noteq hpn]

/-- Raising a node's count from zero adds one live parent to each of its
children and leaves every other node's count alone. -/
theorem live_update_incr (g : Graph) (hnd : g.node_ids.Nodup) {inv : Nat → Nat}
    {n : Nat} (hn : n ∈ g.node_ids) (h0 : inv n = 0) {v : Nat} (hv : v ≠ 0) (m : Nat) :
    live g (Function.update inv n v) m
      = live g inv m + (if m ∈ g.children n then 1 else 0) := by
  by_cases hm : m ∈ g.children n
  · rw [if_pos hm]
    exact countP_flip_at hnd hn (fun x _ hxn => by simp [Function.update_noteq hxn])
      (by simp [hm, hv]) (by simp [h0])
  · rw [if_neg hm, Nat.add_zero]
    apply countP_congr_on
    intro p hp
    by_cases hpn : p = n
    · subst hpn; simp [hm]
    · simp [Function.update_noteq hpn]

theorem live_of_zero_inv (g : Graph) {inv : Nat → Nat}
    (h : ∀ p, inv p = 0) (m : Nat) : live g inv m = 0 := by
  rw [live, List.countP_eq_zero]
  intro p _
  simp [h p]

theorem live_zero_forces (g : Graph) {inv : Nat → Nat} {m : Nat}
    (h : live g inv m = 0) :
    ∀ p ∈ g.node_ids, m ∈ g.children p → inv p = 0 := by
  intro p hp hm
  by_contra hppos
  rw [live, List.countP_eq_zero] at h
  exact h p hp (by simp [hm, hppos])

theorem indexOf_append_left {l₁ l₂ : List Nat} {a : Nat} (h : a ∈ l₁) :
    (l₁ ++ l₂).indexOf a = l₁.indexOf a := by
  induction l₁ with
  | nil => cases h
  | cons b l ih =>
      by_cases hb : b = a
      · subst hb
        simp [List.indexOf_cons_self]
      · rcases List.mem_cons.mp h with hab | h'
        · exact absurd hab.symm hb
        · rw [List.cons_append, List.indexOf_cons_ne _ hb,
            List.indexOf_cons_ne _ hb, ih h']

theorem indexOf_append_self {l : List Nat} {a : Nat} (h : a ∉ l) :
    (l ++ [a]).indexOf a = l.length := by
  induction l with
  | nil => simp [List.indexOf_cons_self]
  | cons b l ih =>
      have hb : b ≠ a := fun hh => h (hh ▸ List.mem_cons_self b l)
      have h' : a ∉ l := fun hh => h (List.mem_cons_of_mem _ hh)
      rw [List.cons_append, List.indexOf_cons_ne _ hb, ih h']
      rfl

theorem nodup_append_singleton {l : List Nat} {a : Nat}
    (hl : l.Nodup) (ha : a ∉ l) : (l ++ [a]).Nodup := by
  rw [List.nodup_append]
  exact ⟨hl, List.nodup_singleton a, by
    intro x hx hx'
    rw [List.mem_singleton] at hx'
    exact ha (hx' ▸ hx)⟩

theorem root_count_pos_of_mem {roots : List Nat} {m : Nat} (h : m ∈ roots) :
    roots.countP (fun c => decide (c = m)) ≠ 0 := by
  have : 0 < roots.countP (fun c => decide (c = m)) :=
    List.countP_pos_iff.mpr ⟨m, h, by simp⟩
  omega

theorem le_foldr_max {l : List Nat} {a : Nat} (h : a ∈ l) :
    a ≤ l.foldr Nat.max 0 := by
  induction l with
  | nil => cases h
  | cons b l ih =>
      rcases List.mem_cons.mp h with rfl | h'
      · exact Nat.le_max_left _ _
      · exact Nat.le_trans (ih h') (Nat.le_max_right _ _)

/-- When every node's `_invalid_count` equals its number of live
parents, acyclicity forces every count to zero: a nonzero node would
need a nonzero parent of strictly larger rank, forever. -/
theorem live_zero_final (g : Graph) (rank : Nat → Nat) (hwf : GraphWF g rank)
    {inv : Nat → Nat} (h : ∀ m, inv m = live g inv m) :
    ∀ m, inv m = 0 := by
  have hbound : ∀ x ∈ g.node_ids, rank x < (g.node_ids.map rank).foldr Nat.max 0 + 1 := by
    intro x hx
    have : rank x ≤ (g.node_ids.map rank).foldr Nat.max 0 :=
      le_foldr_max (List.mem_map_of_mem rank hx)
    omega
  have haux : ∀ d, ∀ m ∈ g.node_ids,
      (g.node_ids.map rank).foldr Nat.max 0 + 1 - rank m ≤ d → inv m = 0 := by
    intro d
    induction d with
    | zero =>
        intro m hm hd
        have := hbound m hm
        omega
    | succ d ih =>
        intro m hm hd
        by_contra hpos
        have hlive : live g inv m ≠ 0 := fun hz => hpos ((h m).trans hz)
        have : 0 < live g inv m := Nat.pos_of_ne_zero hlive
        obtain ⟨p, hp, hpred⟩ := List.countP_pos_iff.mp this
        simp only [Bool.and_eq_true, decide_eq_true_eq] at hpred
        obtain ⟨hmem, hppos⟩ := hpred
        have hrank : rank m < rank p := hwf.rank_lt p m hmem
        have hpK := hbound p hp
        exact hppos (ih p hp (by omega))
  intro m
  by_cases hm : m ∈ g.node_ids
  · exact haux ((g.node_ids.map rank).foldr Nat.max 0 + 1) m hm (by omega)
  · rw [h m, live, List.countP_eq_zero]
    intro p hp
    simp only [Bool.and_eq_true, decide_eq_true_eq, not_and]
    intro hmem
    exact absurd ((hwf.closed p m hmem).2) hm

/-- The invariant of the invalidate phase.  `st0` is the state at phase
start (all counts zero), `roots` the snapshot of `_changed_nodes`, and
`work` the pending `invalidate` calls: a node's count always equals the
calls it has received, which is the committed calls (roots plus one per
live parent) minus the pending ones; captured child sets are current for
every invalidated node; and the phase touches nothing else. -/
structure IInv (g : Graph) (roots : List Nat) (st0 st : GState)
    (work : List (Option Nat × Nat)) : Prop where
  i_eq : ∀ m, st.invalid_count m + tcount work m
      = roots.countP (fun c => decide (c = m)) + live g st.invalid_count m
  i_cc : ∀ m, st.invalid_count m ≠ 0 → st.calc_children m = g.children m
  i_wt : ∀ it ∈ work, it.2 ∈ g.node_ids
  i_needs : st.needs_calculation = st0.needs_calculation
  i_hc : st.has_calculated = st0.has_calculated
  i_q : st.quality = st0.quality
  i_trace : st.trace = st0.trace
  i_changed : st.changed_nodes = st0.changed_nodes

theorem invalidate_run_inv (g : Graph) (rank : Nat → Nat) (hwf : GraphWF g rank)
    (roots : List Nat) (st0 : GState) :
    ∀ fuel work st st', IInv g roots st0 st work →
      invalidate_run g fuel work st = Except.ok st' →
      IInv g roots st0 st' [] := by
  intro fuel
  induction fuel with
  | zero =>
      intro work st st' hinv hrun
      cases work with
      | nil =>
          simp only [invalidate_run] at hrun
          cases hrun
          exact hinv
      | cons a w => simp only [invalidate_run] at hrun; cases hrun
  | succ f ih =>
      intro work st st' hinv hrun
      cases work with
      | nil =>
          simp only [invalidate_run] at hrun
          cases hrun
          exact hinv
      | cons head rest =>
          obtain ⟨parent, n⟩ := head
          have hn_ids : n ∈ g.node_ids :=
            hinv.i_wt (parent, n) (List.mem_cons_self _ _)
          have hnotself : n ∉ g.children n :=
            fun h => absurd (hwf.rank_lt n n h) (lt_irrefl _)
          have hi : (st.record_updated_parent parent n).invalid_count
              = st.invalid_count := by cases parent <;> rfl
          have hcc : (st.record_updated_parent parent n).calc_children
              = st.calc_children := by cases parent <;> rfl
          have hne : (st.record_updated_parent parent n).needs_calculation
              = st.needs_calculation := by cases parent <;> rfl
          have hhc : (st.record_updated_parent parent n).has_calculated
              = st.has_calculated := by cases parent <;> rfl
          have hq : (st.record_updated_parent parent n).quality
              = st.quality := by cases parent <;> rfl
          have htr : (st.record_updated_parent parent n).trace
              = st.trace := by cases parent <;> rfl
          have hch : (st.record_updated_parent parent n).changed_nodes
              = st.changed_nodes := by cases parent <;> rfl
          simp only [invalidate_run] at hrun
          simp only [GState.set_invalid, GState.set_calc_children,
            Function.update_same, hi] at hrun
          by_cases h0 : st.invalid_count n = 0
          · rw [if_pos (by omega : st.invalid_count n + 1 = 1)] at hrun
            refine ih _ _ _ ?_ hrun
            refine ⟨?_, ?_, ?_, ?_, ?_, ?_, ?_, ?_⟩
            · intro m
              simp only [GState.set_invalid, GState.set_calc_children, hi]
              rw [tcount_append, tcount_map_children _ _ (hwf.children_nodup n),
                live_update_incr g hwf.nodup hn_ids h0 (by omega)]
              have hold := hinv.i_eq m
              rw [tcount_cons] at hold
              by_cases hmn : m = n
              · subst hmn
                rw [Function.update_same, if_neg hnotself]
                rw [if_pos rfl] at hold
                omega
              · rw [Function.update_noteq hmn]
                rw [if_neg (fun hh : n = m => hmn hh.symm)] at hold
                by_cases hmc : m ∈ g.children n
                · rw [if_pos hmc]
                  omega
                · rw [if_neg hmc]
                  omega
            · intro m hm
              simp only [GState.set_invalid, GState.set_calc_children, hi] at hm ⊢
              by_cases hmn : m = n
              · subst hmn; rw [Function.update_same]
              · rw [Function.update_noteq hmn] at hm ⊢
                rw [hcc]
                exact hinv.i_cc m hm
            · intro it hit
              rcases List.mem_append.mp hit with hmap | hrest
              · obtain ⟨c, hc, rfl⟩ := List.mem_map.mp hmap
                exact (hwf.closed n c hc).2
              · exact hinv.i_wt it (List.mem_cons_of_mem _ hrest)
            · simpa [GState.set_invalid, GState.set_calc_children, hne]
                using hinv.i_needs
            · simpa [GState.set_invalid, GState.set_calc_children, hhc]
                using hinv.i_hc
            · simpa [GState.set_invalid, GState.set_calc_children, hq]
                using hinv.i_q
            · simpa [GState.set_invalid, GState.set_calc_children, htr]
                using hinv.i_trace
            · simpa [GState.set_invalid, GState.set_calc_children, hch]
                using hinv.i_changed
          · rw [if_neg (by omega : ¬ st.invalid_count n + 1 = 1)] at hrun
            refine ih _ _ _ ?_ hrun
            refine ⟨?_, ?_, ?_, ?_, ?_, ?_, ?_, ?_⟩
            · intro m
              simp only [GState.set_invalid, hi]
              rw [live_update_pos g h0 (by omega)]
              have hold := hinv.i_eq m
              rw [tcount_cons] at hold
              by_cases hmn : m = n
              · subst hmn
                rw [Function.update_same]
                rw [if_pos rfl] at hold
                omega
              · rw [Function.update_noteq hmn]
                rw [if_neg (fun hh : n = m => hmn hh.symm)] at hold
                omega
            · intro m hm
              simp only [GState.set_invalid, hi] at hm ⊢
              rw [hcc]
              by_cases hmn : m = n
              · exact hinv.i_cc _ (hmn ▸ h0)
              · rw [Function.update_noteq hmn] at hm
                exact hinv.i_cc m hm
            · intro it hit
              exact hinv.i_wt it (List.mem_cons_of_mem _ hit)
            · simpa [GState.set_invalid, hne] using hinv.i_needs
            · simpa [GState.set_invalid, hhc] using hinv.i_hc
            · simpa [GState.set_invalid, hq] using hinv.i_q
            · simpa [GState.set_invalid, htr] using hinv.i_trace
            · simpa [GState.set_invalid, hch] using hinv.i_changed

theorem force_needs_invalid (st : GState) (force : Bool) (n : Nat) :
    (st.force_needs force n).invalid_count = st.invalid_count := by
  cases force <;> rfl

theorem force_needs_calc (st : GState) (force : Bool) (n : Nat) :
    (st.force_needs force n).calc_children = st.calc_children := by
  cases force <;> rfl

theorem force_needs_hc (st : GState) (force : Bool) (n : Nat) :
    (st.force_needs force n).has_calculated = st.has_calculated := by
  cases force <;> rfl

theorem force_needs_quality (st : GState) (force : Bool) (n : Nat) :
    (st.force_needs force n).quality = st.quality := by
  cases force <;> rfl

theorem force_needs_trace (st : GState) (force : Bool) (n : Nat) :
    (st.force_needs force n).trace = st.trace := by
  cases force <;> rfl

theorem force_needs_changed (st : GState) (force : Bool) (n : Nat) :
    (st.force_needs force n).changed_nodes = st.changed_nodes := by
  cases force <;> rfl

theorem force_needs_needs_noteq (st : GState) (force : Bool) {n m : Nat}
    (h : m ≠ n) :
    (st.force_needs force n).needs_calculation m = st.needs_calculation m := by
  cases force with
  | false => rfl
  | true => simp [GState.force_needs, GState.set_needs, Function.update_noteq h]

theorem force_needs_needs_true (st : GState) (n : Nat) :
    (st.force_needs true n).needs_calculation n = true := by
  simp [GState.force_needs, GState.set_needs, Function.update_same]

theorem run_body_invalid (st : GState) (g : Graph) (n : Nat) :
    (st.run_calculate_body g n).invalid_count = st.invalid_count := rfl

theorem run_body_calc (st : GState) (g : Graph) (n : Nat) :
    (st.run_calculate_body g n).calc_children = st.calc_children := rfl

theorem run_body_changed (st : GState) (g : Graph) (n : Nat) :
    (st.run_calculate_body g n).changed_nodes = st.changed_nodes := rfl

theorem run_body_needs (st : GState) (g : Graph) (n : Nat) :
    (st.run_calculate_body g n).needs_calculation
      = Function.update st.needs_calculation n false := rfl

theorem run_body_hc (st : GState) (g : Graph) (n : Nat) :
    (st.run_calculate_body g n).has_calculated
      = Function.update st.has_calculated n true := rfl

theorem run_body_trace (st : GState) (g : Graph) (n : Nat) :
    (st.run_calculate_body g n).trace = st.trace ++ [n] := rfl

theorem run_body_quality_noteq (st : GState) (g : Graph) {n m : Nat} (h : m ≠ n) :
    (st.run_calculate_body g n).quality m = st.quality m := by
  simp [GState.run_calculate_body, GState.calculate_quality,
    Function.update_noteq h]

/-- The invariant of the validate phase, relative to the phase-start
state `A` (just after the invalidate phase).  Counts only decrease; a
node's count always equals its pending deliveries (`work`) plus the
deliveries still owed by not-yet-validated parents (`live`); captured
child sets are those of the graph for every reached node; the trace is
duplicate-free, lists exactly the nodes whose calculate body ran, and is
consistent with the `needs_calculation` / `has_calculated` / `quality`
bookkeeping; and a traced node's reached parents all validated to zero
before it, earlier on the trace or silently with their needs-flag
clear. -/
structure VInv (g : Graph) (A st : GState) (work : List (Bool × Nat)) : Prop where
  v_eq : ∀ m, st.invalid_count m = tcount work m + live g st.invalid_count m
  v_mono : ∀ m, st.invalid_count m ≤ A.invalid_count m
  v_cc : st.calc_children = A.calc_children
  v_ccA : ∀ m, A.invalid_count m ≠ 0 → A.calc_children m = g.children m
  v_wt : ∀ it ∈ work, it.2 ∈ g.node_ids
  v_nodup : st.trace.Nodup
  v_fired : ∀ m ∈ st.trace, st.invalid_count m = 0 ∧ A.invalid_count m ≠ 0
  v_trace_nc : ∀ m ∈ st.trace, st.needs_calculation m = false
  v_hc : ∀ m, st.has_calculated m = (A.has_calculated m || decide (m ∈ st.trace))
  v_nc_origin : ∀ m, st.needs_calculation m = false →
      A.needs_calculation m = false ∨ m ∈ st.trace
  v_fired_nc : ∀ m, A.invalid_count m ≠ 0 → st.invalid_count m = 0 →
      m ∉ st.trace → st.needs_calculation m = false
  v_q : ∀ m, m ∉ st.trace → st.quality m = A.quality m
  v_unreached : ∀ m, A.invalid_count m = 0 →
      st.needs_calculation m = A.needs_calculation m
  v_ord : ∀ m ∈ st.trace, ∀ p, m ∈ g.children p → A.invalid_count p ≠ 0 →
      st.invalid_count p = 0
      ∧ ((p ∈ st.trace ∧ st.trace.indexOf p < st.trace.indexOf m)
          ∨ (p ∉ st.trace ∧ st.needs_calculation p = false))
  v_changed : st.changed_nodes = A.changed_nodes

theorem validate_run_inv (g : Graph) (rank : Nat → Nat) (hwf : GraphWF g rank)
    (A : GState) :
    ∀ fuel work st st', VInv g A st work →
      validate_run g fuel work st = Except.ok st' →
      VInv g A st' [] := by
  intro fuel
  induction fuel with
  | zero =>
      intro work st st' hinv hrun
      cases work with
      | nil => simp only [validate_run] at hrun; cases hrun; exact hinv
      | cons a w => simp only [validate_run] at hrun; cases hrun
  | succ f ih =>
      intro work st st' hinv hrun
      cases work with
      | nil => simp only [validate_run] at hrun; cases hrun; exact hinv
      | cons head rest =>
          obtain ⟨force, n⟩ := head
          have hn_ids : n ∈ g.node_ids :=
            hinv.v_wt (force, n) (List.mem_cons_self _ _)
          have hnotself : n ∉ g.children n :=
            fun h => absurd (hwf.rank_lt n n h) (lt_irrefl _)
          have hineq : st.invalid_count n
              = tcount rest n + 1 + live g st.invalid_count n := by
            have := hinv.v_eq n
            rw [tcount_cons, if_pos rfl] at this
            omega
          have hpos : ¬ st.invalid_count n = 0 := by omega
          have hAn : A.invalid_count n ≠ 0 := by
            have := hinv.v_mono n
            omega
          have hntr : n ∉ st.trace :=
            fun h => absurd (hinv.v_fired n h).1 hpos
          simp only [validate_run, force_needs_invalid] at hrun
          rw [if_neg hpos] at hrun
          simp only [GState.set_invalid, Function.update_same,
            force_needs_calc, run_body_calc] at hrun
          by_cases hone : st.invalid_count n = 1
          · -- this delivery is the node's last: it fires
            have hz1 : st.invalid_count n - 1 = 0 := by omega
            have htc0 : tcount rest n = 0 := by omega
            have hlv0 : live g st.invalid_count n = 0 := by omega
            have hccn : st.calc_children n = g.children n := by
              rw [hinv.v_cc]; exact hinv.v_ccA n hAn
            rw [if_pos (by omega : st.invalid_count n - 1 = 0)] at hrun
            rw [hccn] at hrun
            -- the fired node's reached parents have all validated to zero
            have hpar0 : ∀ p, n ∈ g.children p → st.invalid_count p = 0 :=
              fun p hp =>
                live_zero_forces g hlv0 p (hwf.closed p n hp).1 hp
            by_cases hb : (st.force_needs force n).needs_calculation n = true
            · -- _needs_calculation is set: the calculate body runs
              rw [if_pos hb] at hrun
              refine ih _ _ _ ?_ hrun
              refine ⟨?_, ?_, ?_, hinv.v_ccA, ?_, ?_, ?_, ?_, ?_, ?_, ?_, ?_,
                ?_, ?_, ?_⟩
              · intro m
                simp only [run_body_invalid, force_needs_invalid, hz1]
                rw [tcount_append, tcount_map_children _ _ (hwf.children_nodup n)]
                have hlz := live_update_zero g hwf.nodup hn_ids hpos m
                by_cases hmn : m = n
                · subst hmn
                  rw [Function.update_same, if_neg hnotself]
                  rw [if_neg hnotself] at hlz
                  omega
                · rw [Function.update_noteq hmn]
                  have hold := hinv.v_eq m
                  rw [tcount_cons, if_neg (fun hh : n = m => hmn hh.symm)] at hold
                  by_cases hmc : m ∈ g.children n
                  · rw [if_pos hmc]
                    rw [if_pos hmc] at hlz
                    omega
                  · rw [if_neg hmc]
                    rw [if_neg hmc] at hlz
                    omega
              · intro m
                simp only [run_body_invalid, force_needs_invalid, hz1]
                by_cases hmn : m = n
                · subst hmn; rw [Function.update_same]; omega
                · rw [Function.update_noteq hmn]; exact hinv.v_mono m
              · simp only [run_body_calc, force_needs_calc]
                exact hinv.v_cc
              · intro it hit
                rcases List.mem_append.mp hit with hmap | hrest
                · obtain ⟨c, hc, rfl⟩ := List.mem_map.mp hmap
                  exact (hwf.closed n c hc).2
                · exact hinv.v_wt it (List.mem_cons_of_mem _ hrest)
              · simp only [run_body_trace, force_needs_trace]
                exact nodup_append_singleton hinv.v_nodup hntr
              · intro m hm
                simp only [run_body_trace, force_needs_trace] at hm
                simp only [run_body_invalid, force_needs_invalid, hz1]
                rcases List.mem_append.mp hm with hmt | hms
                · have hmn : m ≠ n := fun hh => hntr (hh ▸ hmt)
                  rw [Function.update_noteq hmn]
                  exact hinv.v_fired m hmt
                · rw [List.mem_singleton] at hms
                  subst hms
                  rw [Function.update_same]
                  exact ⟨rfl, hAn⟩
              · intro m hm
                simp only [run_body_trace, force_needs_trace] at hm
                simp only [run_body_needs]
                rcases List.mem_append.mp hm with hmt | hms
                · have hmn : m ≠ n := fun hh => hntr (hh ▸ hmt)
                  rw [Function.update_noteq hmn, force_needs_needs_noteq st force hmn]
                  exact hinv.v_trace_nc m hmt
                · rw [List.mem_singleton] at hms
                  subst hms
                  rw [Function.update_same]
              · intro m
                simp only [run_body_hc, run_body_trace, force_needs_hc,
                  force_needs_trace]
                by_cases hmn : m = n
                · subst hmn
                  rw [Function.update_same]
                  simp
                · rw [Function.update_noteq hmn]
                  rw [show decide (m ∈ st.trace ++ [n]) = decide (m ∈ st.trace) from
                    decide_eq_decide.mpr (by simp [hmn])]
                  exact hinv.v_hc m
              · intro m hm
                simp only [run_body_needs] at hm
                simp only [run_body_trace, force_needs_trace]
                by_cases hmn : m = n
                · subst hmn
                  right
                  simp
                · rw [Function.update_noteq hmn,
                    force_needs_needs_noteq st force hmn] at hm
                  rcases hinv.v_nc_origin m hm with h | h
                  · exact Or.inl h
                  · exact Or.inr (List.mem_append_left _ h)
              · intro m hA hm0 hmt
                simp only [run_body_trace, force_needs_trace] at hmt
                simp only [run_body_invalid, force_needs_invalid, hz1] at hm0
                simp only [run_body_needs]
                by_cases hmn : m = n
                · exact absurd (by simp [hmn] : m ∈ st.trace ++ [n]) hmt
                · rw [Function.update_noteq hmn] at hm0
                  rw [Function.update_noteq hmn,
                    force_needs_needs_noteq st force hmn]
                  exact hinv.v_fired_nc m hA hm0
                    (fun hh => hmt (List.mem_append_left _ hh))
              · intro m hm
                simp only [run_body_trace, force_needs_trace] at hm
                have hmn : m ≠ n := fun hh => hm (by simp [hh])
                have hmt : m ∉ st.trace := fun hh => hm (List.mem_append_left _ hh)
                rw [run_body_quality_noteq _ g hmn, force_needs_quality]
                exact hinv.v_q m hmt
              · intro m hA0
                have hmn : m ≠ n := fun hh => hAn (hh ▸ hA0)
                simp only [run_body_needs]
                rw [Function.update_noteq hmn, force_needs_needs_noteq st force hmn]
                exact hinv.v_unreached m hA0
              · intro m hm p hp hAp
                simp only [run_body_trace, force_needs_trace] at hm ⊢
                simp only [run_body_invalid, force_needs_invalid, hz1]
                simp only [run_body_needs]
                rcases List.mem_append.mp hm with hmt | hms
                · have hmn : m ≠ n := fun hh => hntr (hh ▸ hmt)
                  obtain ⟨hp0, hdisj⟩ := hinv.v_ord m hmt p hp hAp
                  have hpn : p ≠ n := fun hh => hpos (hh ▸ hp0)
                  rw [Function.update_noteq hpn]
                  refine ⟨hp0, ?_⟩
                  rcases hdisj with ⟨hpt, hidx⟩ | ⟨hpt, hpnc⟩
                  · left
                    refine ⟨List.mem_append_left _ hpt, ?_⟩
                    rw [indexOf_append_left hpt, indexOf_append_left hmt]
                    exact hidx
                  · right
                    refine ⟨fun hh => ?_, ?_⟩
                    · rcases List.mem_append.mp hh with h1 | h1
                      · exact hpt h1
                      · rw [List.mem_singleton] at h1; exact hpn h1
                    · rw [Function.update_noteq hpn,
                        force_needs_needs_noteq st force hpn]
                      exact hpnc
                · rw [List.mem_singleton] at hms
                  subst hms
                  have hp0 : st.invalid_count p = 0 := hpar0 p hp
                  have hpn : p ≠ m := fun hh => hpos (hh ▸ hp0)
                  rw [Function.update_noteq hpn]
                  refine ⟨hp0, ?_⟩
                  by_cases hpt : p ∈ st.trace
                  · left
                    refine ⟨List.mem_append_left _ hpt, ?_⟩
                    rw [indexOf_append_left hpt, indexOf_append_self hntr]
                    exact List.indexOf_lt_length.mpr hpt
                  · right
                    refine ⟨fun hh => ?_, ?_⟩
                    · rcases List.mem_append.mp hh with h1 | h1
                      · exact hpt h1
                      · rw [List.mem_singleton] at h1; exact hpn h1
                    · rw [Function.update_noteq hpn,
                        force_needs_needs_noteq st force hpn]
                      exact hinv.v_fired_nc p hAp hp0 hpt
              · simp only [run_body_changed, force_needs_changed]
                exact hinv.v_changed
            · -- _needs_calculation is clear: the body is skipped
              rw [if_neg hb] at hrun
              have hforce : force = false := by
                cases force
                · rfl
                · exact absurd (force_needs_needs_true st n) hb
              subst hforce
              rw [show st.force_needs false n = st from rfl] at hrun
              have hbn : st.needs_calculation n = false := by
                revert hb
                rw [show st.force_needs false n = st from rfl]
                cases st.needs_calculation n <;> simp
              refine ih _ _ _ ?_ hrun
              refine ⟨?_, ?_, hinv.v_cc, hinv.v_ccA, ?_, hinv.v_nodup, ?_, ?_,
                ?_, hinv.v_nc_origin, ?_, hinv.v_q, hinv.v_unreached, ?_,
                hinv.v_changed⟩
              · intro m
                simp only [hz1]
                rw [tcount_append, tcount_map_children _ _ (hwf.children_nodup n)]
                have hlz := live_update_zero g hwf.nodup hn_ids hpos m
                by_cases hmn : m = n
                · subst hmn
                  rw [Function.update_same, if_neg hnotself]
                  rw [if_neg hnotself] at hlz
                  omega
                · rw [Function.update_noteq hmn]
                  have hold := hinv.v_eq m
                  rw [tcount_cons, if_neg (fun hh : n = m => hmn hh.symm)] at hold
                  by_cases hmc : m ∈ g.children n
                  · rw [if_pos hmc]
                    rw [if_pos hmc] at hlz
                    omega
                  · rw [if_neg hmc]
                    rw [if_neg hmc] at hlz
                    omega
              · intro m
                simp only [hz1]
                by_cases hmn : m = n
                · subst hmn; rw [Function.update_same]; omega
                · rw [Function.update_noteq hmn]; exact hinv.v_mono m
              · intro it hit
                rcases List.mem_append.mp hit with hmap | hrest
                · obtain ⟨c, hc, rfl⟩ := List.mem_map.mp hmap
                  exact (hwf.closed n c hc).2
                · exact hinv.v_wt it (List.mem_cons_of_mem _ hrest)
              · intro m hm
                simp only [hz1]
                have hmn : m ≠ n := fun hh => hntr (hh ▸ hm)
                rw [Function.update_noteq hmn]
                exact hinv.v_fired m hm
              · exact hinv.v_trace_nc
              · exact hinv.v_hc
              · intro m hA hm0 hmt
                simp only [hz1] at hm0
                by_cases hmn : m = n
                · subst hmn; exact hbn
                · rw [Function.update_noteq hmn] at hm0
                  exact hinv.v_fired_nc m hA hm0 hmt
              · intro m hm p hp hAp
                simp only [hz1]
                obtain ⟨hp0, hdisj⟩ := hinv.v_ord m hm p hp hAp
                have hpn : p ≠ n := fun hh => hpos (hh ▸ hp0)
                rw [Function.update_noteq hpn]
                exact ⟨hp0, hdisj⟩
          · -- more deliveries pending: only decrement
            rw [if_neg (by omega : ¬ st.invalid_count n - 1 = 0)] at hrun
            refine ih _ _ _ ?_ hrun
            have hvne : ¬ st.invalid_count n - 1 = 0 := by omega
            refine ⟨?_, ?_, ?_, hinv.v_ccA, ?_, ?_, ?_, ?_, ?_, ?_,
              ?_, ?_, ?_, ?_, ?_⟩
            · intro m
              simp only [force_needs_invalid]
              rw [live_update_pos g hpos hvne]
              by_cases hmn : m = n
              · subst hmn
                rw [Function.update_same]
                omega
              · rw [Function.update_noteq hmn]
                have hold := hinv.v_eq m
                rw [tcount_cons, if_neg (fun hh : n = m => hmn hh.symm)] at hold
                omega
            · intro m
              simp only [force_needs_invalid]
              by_cases hmn : m = n
              · subst hmn; rw [Function.update_same]
                have := hinv.v_mono m
                omega
              · rw [Function.update_noteq hmn]; exact hinv.v_mono m
            · exact hinv.v_cc
            · intro it hit
              exact hinv.v_wt it (List.mem_cons_of_mem _ hit)
            · simp only [force_needs_trace]
              exact hinv.v_nodup
            · intro m hm
              simp only [force_needs_trace] at hm
              simp only [force_needs_invalid]
              have hmn : m ≠ n := fun hh => hntr (hh ▸ hm)
              rw [Function.update_noteq hmn]
              exact hinv.v_fired m hm
            · intro m hm
              simp only [force_needs_trace] at hm
              have hmn : m ≠ n := fun hh => hntr (hh ▸ hm)
              rw [force_needs_needs_noteq st force hmn]
              exact hinv.v_trace_nc m hm
            · intro m
              simp only [force_needs_hc, force_needs_trace]
              exact hinv.v_hc m
            · intro m hm
              simp only [force_needs_trace]
              by_cases hmn : m = n
              · subst hmn
                cases force
                · rw [show st.force_needs false m = st from rfl] at hm
                  exact hinv.v_nc_origin m hm
                · rw [force_needs_needs_true st m] at hm
                  cases hm
              · rw [force_needs_needs_noteq st force hmn] at hm
                exact hinv.v_nc_origin m hm
            · intro m hA hm0 hmt
              simp only [force_needs_invalid] at hm0
              simp only [force_needs_trace] at hmt
              by_cases hmn : m = n
              · subst hmn
                rw [Function.update_same] at hm0
                exact absurd hm0 hvne
              · rw [Function.update_noteq hmn] at hm0
                rw [force_needs_needs_noteq st force hmn]
                exact hinv.v_fired_nc m hA hm0 hmt
            · intro m hm
              simp only [force_needs_trace] at hm
              simp only [force_needs_quality]
              exact hinv.v_q m hm
            · intro m hA0
              have hmn : m ≠ n := fun hh => hAn (hh ▸ hA0)
              rw [force_needs_needs_noteq st force hmn]
              exact hinv.v_unreached m hA0
            · intro m hm p hp hAp
              simp only [force_needs_trace] at hm ⊢
              simp only [force_needs_invalid]
              obtain ⟨hp0, hdisj⟩ := hinv.v_ord m hm p hp hAp
              have hpn : p ≠ n := fun hh => hpos (hh ▸ hp0)
              rw [Function.update_noteq hpn]
              refine ⟨hp0, ?_⟩
              rcases hdisj with h | ⟨hpt, hpnc⟩
              · exact Or.inl h
              · exact Or.inr ⟨hpt, by
                  rw [force_needs_needs_noteq st force hpn]; exact hpnc⟩
            · simp only [force_needs_changed]
              exact hinv.v_changed

theorem clear_updated_parents_frame (st : GState) :
    st.clear_updated_parents.invalid_count = st.invalid_count
    ∧ st.clear_updated_parents.needs_calculation = st.needs_calculation
    ∧ st.clear_updated_parents.has_calculated = st.has_calculated
    ∧ st.clear_updated_parents.quality = st.quality
    ∧ st.clear_updated_parents.trace = st.trace
    ∧ st.clear_updated_parents.changed_nodes = st.changed_nodes := by
  have haux : ∀ (l : List Nat) (s : GState),
      (l.foldl (fun s m =>
        { s with updated_parents := Function.update s.updated_parents m [] }) s).invalid_count
          = s.invalid_count
      ∧ (l.foldl (fun s m =>
        { s with updated_parents := Function.update s.updated_parents m [] }) s).needs_calculation
          = s.needs_calculation
      ∧ (l.foldl (fun s m =>
        { s with updated_parents := Function.update s.updated_parents m [] }) s).has_calculated
          = s.has_calculated
      ∧ (l.foldl (fun s m =>
        { s with updated_parents := Function.update s.updated_parents m [] }) s).quality
          = s.quality
      ∧ (l.foldl (fun s m =>
        { s with updated_parents := Function.update s.updated_parents m [] }) s).trace
          = s.trace
      ∧ (l.foldl (fun s m =>
        { s with updated_parents := Function.update s.updated_parents m [] }) s).changed_nodes
          = s.changed_nodes := by
    intro l
    induction l with
    | nil => intro s; exact ⟨rfl, rfl, rfl, rfl, rfl, rfl⟩
    | cons a l ih =>
        intro s
        simpa using ih { s with updated_parents := Function.update s.updated_parents a [] }
  exact haux st.nodes_with_updated_parents st

/-- One complete, non-raising `GraphManager.calculate` cycle over a
well-formed graph of base-class nodes, starting from a between-cycles
state (all counts zero, the dirty set duplicate-free and inside the
graph, and every node whose `_needs_calculation` flag is set sitting in
`_changed_nodes`).  The cycle leaves every count at zero; the trace —
the nodes whose calculate body ran — is duplicate-free; every traced
node ran strictly after each of its parents that ran this cycle, and
any parent of it that did not run had its `_needs_calculation` flag
clear at cycle start (that flag is cleared exactly when a body
completes, so such a parent calculated in an earlier cycle); the
`has_calculated` flags afterwards are the old flags OR-ed with this
cycle's trace; and the quality of any node that did not run is
untouched. -/
theorem run_cycle_spec (g : Graph) (rank : Nat → Nat) (hwf : GraphWF g rank)
    (fuel : Nat) (st0 st' : GState)
    (hz : ∀ m, st0.invalid_count m = 0)
    (hnd : st0.changed_nodes.Nodup)
    (hsub : ∀ m ∈ st0.changed_nodes, m ∈ g.node_ids)
    (hnc : ∀ m, st0.needs_calculation m = true → m ∈ st0.changed_nodes)
    (hrun : run_cycle g fuel st0 = Except.ok st') :
    (∀ m, st'.invalid_count m = 0)
    ∧ st'.trace.Nodup
    ∧ (∀ m ∈ st'.trace, ∀ p ∈ g.parents m,
        (p ∈ st'.trace ∧ st'.trace.indexOf p < st'.trace.indexOf m)
        ∨ st0.needs_calculation p = false)
    ∧ (∀ m, st'.has_calculated m
        = (st0.has_calculated m || decide (m ∈ st'.trace)))
    ∧ (∀ m, m ∉ st'.trace → st'.quality m = st0.quality m) := by
  simp only [run_cycle, Bind.bind, Except.bind, pure, Except.pure] at hrun
  by_cases hemp : st0.changed_nodes.isEmpty = true
  · rw [if_pos hemp] at hrun
    injection hrun with hrun
    subst hrun
    obtain ⟨f1, f2, f3, f4, f5, f6⟩ :=
      clear_updated_parents_frame { st0 with trace := [] }
    have htr : ({ st0 with trace := [] } : GState).clear_updated_parents.trace
        = [] := f5
    refine ⟨fun m => by rw [f1]; exact hz m, by rw [htr]; exact List.nodup_nil,
      ?_, ?_, ?_⟩
    · intro m hm
      rw [htr] at hm
      cases hm
    · intro m
      rw [f3, htr]
      simp
    · intro m hm
      rw [f4]
  · rw [if_neg hemp] at hrun
    rcases hI : invalidate_run g fuel
        (List.map (fun r => ((none : Option Nat), r)) st0.changed_nodes)
        { st0 with trace := [], changed_nodes := [] } with e | A
    · rw [hI] at hrun
      cases hrun
    · rw [hI] at hrun
      rcases hV : validate_run g fuel
          (List.map (fun r => (false, r)) st0.changed_nodes) A with e | Z
      · simp only [hV] at hrun
        cases hrun
      · simp only [hV, Except.ok.injEq] at hrun
        subst hrun
        have hIInv0 : IInv g st0.changed_nodes
            { st0 with trace := [], changed_nodes := [] }
            { st0 with trace := [], changed_nodes := [] }
            (List.map (fun r => ((none : Option Nat), r)) st0.changed_nodes) := by
          refine ⟨?_, ?_, ?_, rfl, rfl, rfl, rfl, rfl⟩
          · intro m
            have h1 : tcount (List.map (fun r => ((none : Option Nat), r))
                st0.changed_nodes) m
                = st0.changed_nodes.countP (fun c => decide (c = m)) := by
              rw [tcount, List.countP_map]
              rfl
            rw [h1, live_of_zero_inv g (fun p => hz p) m]
            simp [hz m]
          · intro m hm0
            exact (hm0 (hz m)).elim
          · intro it hit
            obtain ⟨r, hr, rfl⟩ := List.mem_map.mp hit
            exact hsub r hr
        have hIA := invalidate_run_inv g rank hwf st0.changed_nodes _
          fuel _ _ _ hIInv0 hI
        have hAtr : A.trace = [] := hIA.i_trace
        have hAneeds : A.needs_calculation = st0.needs_calculation := hIA.i_needs
        have hAhc : A.has_calculated = st0.has_calculated := hIA.i_hc
        have hAq : A.quality = st0.quality := hIA.i_q
        have hAeq : ∀ m, A.invalid_count m
            = st0.changed_nodes.countP (fun c => decide (c = m))
              + live g A.invalid_count m := by
          intro m
          have := hIA.i_eq m
          simpa [tcount] using this
        have hVInv0 : VInv g A A
            (List.map (fun r => (false, r)) st0.changed_nodes) := by
          refine ⟨?_, fun m => le_refl _, rfl, hIA.i_cc, ?_, ?_, ?_, ?_, ?_,
            ?_, ?_, ?_, ?_, ?_, rfl⟩
          · intro m
            have h1 : tcount (List.map (fun r => (false, r)) st0.changed_nodes) m
                = st0.changed_nodes.countP (fun c => decide (c = m)) := by
              rw [tcount, List.countP_map]
              rfl
            rw [h1]
            exact hAeq m
          · intro it hit
            obtain ⟨r, hr, rfl⟩ := List.mem_map.mp hit
            exact hsub r hr
          · rw [hAtr]; exact List.nodup_nil
          · intro m hm; rw [hAtr] at hm; cases hm
          · intro m hm; rw [hAtr] at hm; cases hm
          · intro m; rw [hAtr]; simp
          · intro m hm; exact Or.inl hm
          · intro m hA h0 _; exact absurd h0 hA
          · intro m _; rfl
          · intro m _; rfl
          · intro m hm; rw [hAtr] at hm; cases hm
        have hVZ := validate_run_inv g rank hwf A fuel _ _ _ hVInv0 hV
        have hZ0 : ∀ m, Z.invalid_count m = 0 := by
          apply live_zero_final g rank hwf
          intro m
          have := hVZ.v_eq m
          simpa [tcount] using this
        obtain ⟨f1, f2, f3, f4, f5, f6⟩ := clear_updated_parents_frame Z
        refine ⟨fun m => by rw [f1]; exact hZ0 m,
          by rw [f5]; exact hVZ.v_nodup, ?_, ?_, ?_⟩
        · intro m hm p hp
          rw [f5] at hm ⊢
          have hcp : m ∈ g.children p := (hwf.symm p m).mpr hp
          by_cases hAp : A.invalid_count p = 0
          · right
            by_cases hneeds : st0.needs_calculation p = true
            · exfalso
              have hproots : p ∈ st0.changed_nodes := hnc p hneeds
              have h2 := hAeq p
              have hrc := root_count_pos_of_mem hproots
              omega
            · revert hneeds
              cases st0.needs_calculation p <;> simp
          · obtain ⟨hp0, hdisj⟩ := hVZ.v_ord m hm p hcp hAp
            rcases hdisj with ⟨hpt, hidx⟩ | ⟨hpt, hpnc⟩
            · exact Or.inl ⟨hpt, hidx⟩
            · right
              rcases hVZ.v_nc_origin p hpnc with h | h
              · rw [hAneeds] at h
                exact h
              · exact absurd h hpt
        · intro m
          rw [f3, f5, hVZ.v_hc m, hAhc]
        · intro m hm
          rw [f5] at hm
          rw [f4, hVZ.v_q m hm, hAq]

/-- Claim C2: after every invocation of `calculate()` that completes
without raising — started from a between-cycles state — every node's
`_invalid_count` is zero again. -/
theorem invalid_count_zero_after_cycle (g : Graph) (rank : Nat → Nat)
    (hwf : GraphWF g rank) (fuel : Nat) (st0 st' : GState)
    (hz : ∀ m, st0.invalid_count m = 0)
    (hnd : st0.changed_nodes.Nodup)
    (hsub : ∀ m ∈ st0.changed_nodes, m ∈ g.node_ids)
    (hnc : ∀ m, st0.needs_calculation m = true → m ∈ st0.changed_nodes)
    (hrun : run_cycle g fuel st0 = Except.ok st') :
    ∀ m, st'.invalid_count m = 0 :=
  (run_cycle_spec g rank hwf fuel st0 st' hz hnd hsub hnc hrun).1

/-- Claim C1: in every completed `calculate()` cycle each node's
calculate body runs at most once (the trace is duplicate-free), and a
node's body runs only after the body has completed on every parent it
had at invalidate time: each such parent either ran earlier in this
cycle's trace, or had its `_needs_calculation` flag clear at cycle start
— and that flag is cleared exactly when a body completes, so the parent
calculated in an earlier cycle. -/
theorem calculate_once_after_parents (g : Graph) (rank : Nat → Nat)
    (hwf : GraphWF g rank) (fuel : Nat) (st0 st' : GState)
    (hz : ∀ m, st0.invalid_count m = 0)
    (hnd : st0.changed_nodes.Nodup)
    (hsub : ∀ m ∈ st0.changed_nodes, m ∈ g.node_ids)
    (hnc : ∀ m, st0.needs_calculation m = true → m ∈ st0.changed_nodes)
    (hrun : run_cycle g fuel st0 = Except.ok st') :
    st'.trace.Nodup
    ∧ ∀ m ∈ st'.trace, ∀ p ∈ g.parents m,
        (p ∈ st'.trace ∧ st'.trace.indexOf p < st'.trace.indexOf m)
        ∨ st0.needs_calculation p = false :=
  ⟨(run_cycle_spec g rank hwf fuel st0 st' hz hnd hsub hnc hrun).2.1,
    (run_cycle_spec g rank hwf fuel st0 st' hz hnd hsub hnc hrun).2.2.1⟩

/-- A diamond: 0 feeds 1 and 2, which both feed 3. -/
def diamondGraph : Graph where
  node_ids := [0, 1, 2, 3]
  children := fun n =>
    if n = 0 then [1, 2] else if n = 1 then [3] else if n = 2 then [3] else []
  parents := fun n =>
    if n = 1 then [0] else if n = 2 then [0] else if n = 3 then [1, 2] else []

/-- An acyclicity certificate for the diamond. -/
def diamondRank : Nat → Nat := fun n =>
  if n = 0 then 2 else if n = 3 then 0 else 1

theorem diamondWF : GraphWF diamondGraph diamondRank := by
  refine ⟨by decide, ?_, ?_, ?_, ?_⟩
  · intro p
    simp only [diamondGraph]
    split_ifs <;> decide
  · intro p c hc
    simp only [diamondGraph] at hc ⊢
    split_ifs at hc with h0 h1 h2
    · subst h0; fin_cases hc <;> decide
    · subst h1; fin_cases hc <;> decide
    · subst h2; fin_cases hc <;> decide
    · cases hc
  · intro p c
    simp only [diamondGraph]
    constructor
    · intro hc
      split_ifs at hc with h0 h1 h2
      · subst h0; fin_cases hc <;> decide
      · subst h1; fin_cases hc <;> decide
      · subst h2; fin_cases hc <;> decide
      · cases hc
    · intro hp
      split_ifs at hp with h0 h1 h2
      · subst h0; fin_cases hp <;> decide
      · subst h1; fin_cases hp <;> decide
      · subst h2; fin_cases hp <;> decide
      · cases hp
  · intro p c hc
    simp only [diamondGraph] at hc
    split_ifs at hc with h0 h1 h2
    · subst h0; fin_cases hc <;> decide
    · subst h1; fin_cases hc <;> decide
    · subst h2; fin_cases hc <;> decide
    · cases hc

/-- A between-cycles state of the diamond in which only the root is
dirty. -/
def diamondState0 : GState where
  invalid_count := fun _ => 0
  needs_calculation := fun n => decide (n = 0)
  has_calculated := fun _ => false
  calc_children := fun _ => []
  updated_parents := fun _ => []
  quality := fun _ => Quality.init
  changed_nodes := [0]
  nodes_with_updated_parents := []
  trace := []

theorem diamondState0_nc :
    ∀ m, diamondState0.needs_calculation m = true →
      m ∈ diamondState0.changed_nodes := by
  intro m h
  have hm : m = 0 := by simpa [diamondState0] using h
  subst hm
  simp [diamondState0]

/-- Witness for `invalid_count_zero_after_cycle` on the diamond. -/
theorem invalid_count_zero_after_cycle_witness :
    (∀ m, diamondState0.invalid_count m = 0)
    ∧ diamondState0.changed_nodes.Nodup
    ∧ (∀ m ∈ diamondState0.changed_nodes, m ∈ diamondGraph.node_ids)
    ∧ (∀ m, diamondState0.needs_calculation m = true →
        m ∈ diamondState0.changed_nodes)
    ∧ ∃ st', run_cycle diamondGraph 20 diamondState0 = Except.ok st'
        ∧ ∀ m, st'.invalid_count m = 0 :=
  ⟨fun _ => rfl, by decide, by decide, diamondState0_nc,
    ⟨_, rfl, invalid_count_zero_after_cycle diamondGraph diamondRank diamondWF
      20 diamondState0 _ (fun _ => rfl) (by decide) (by decide)
      diamondState0_nc rfl⟩⟩

/-- Witness for `calculate_once_after_parents` on the diamond. -/
theorem calculate_once_after_parents_witness :
    (∀ m, diamondState0.invalid_count m = 0)
    ∧ diamondState0.changed_nodes.Nodup
    ∧ (∀ m ∈ diamondState0.changed_nodes, m ∈ diamondGraph.node_ids)
    ∧ (∀ m, diamondState0.needs_calculation m = true →
        m ∈ diamondState0.changed_nodes)
    ∧ ∃ st', run_cycle diamondGraph 20 diamondState0 = Except.ok st'
        ∧ st'.trace.Nodup
        ∧ ∀ m ∈ st'.trace, ∀ p ∈ diamondGraph.parents m,
            (p ∈ st'.trace ∧ st'.trace.indexOf p < st'.trace.indexOf m)
            ∨ diamondState0.needs_calculation p = false :=
  ⟨fun _ => rfl, by decide, by decide, diamondState0_nc,
    ⟨_, rfl, calculate_once_after_parents diamondGraph diamondRank diamondWF
      20 diamondState0 _ (fun _ => rfl) (by decide) (by decide)
      diamondState0_nc rfl⟩⟩

/-- A single isolated node, marked dirty. -/
def singleGraph : Graph where
  node_ids := [0]
  children := fun _ => []
  parents := fun _ => []

/-- The single node's between-cycles start state. -/
def singleState : GState where
  invalid_count := fun _ => 0
  needs_calculation := fun n => decide (n = 0)
  has_calculated := fun _ => false
  calc_children := fun _ => []
  updated_parents := fun _ => []
  quality := fun _ => Quality.init
  changed_nodes := [0]
  nodes_with_updated_parents := []
  trace := []

/-- Claim C9: `has_calculated` is never reset.  Node 0 calculates in the
first cycle and its flag goes true.  The second cycle runs nothing (the
trace is empty), yet afterwards `has_calculated` still reads true — the
code sets the flag in `validate` but no code path ever clears it (the
`use_has_calculated_flags` property its comment and the tests refer to
is read nowhere), so the tests' `assert root_node.has_calculated is
False` after a quiet cycle fails. -/
theorem has_calculated_not_reset :
    ∃ st1 st2, run_cycle singleGraph 4 singleState = Except.ok st1
      ∧ st1.trace = [0]
      ∧ st1.has_calculated 0 = true
      ∧ run_cycle singleGraph 4 st1 = Except.ok st2
      ∧ st2.trace = []
      ∧ st2.has_calculated 0 = true :=
  ⟨_, _, rfl, rfl, rfl, rfl, rfl, rfl⟩
